import Mathlib

/-!
Verification of the katpoint numerical correction and projection engine
(`katpoint/projection.py` and `katpoint/correction.py`).

The Python code computes with IEEE doubles; the embedding models the same
formulas over the real numbers, with `Except String` capturing `raise
ValueError(msg)`.  Each definition mirrors one Python function, keeping its
name, the order of its range checks and the exact error message strings.
`numpy.arctan2 y x` is modelled as the argument of the complex number
`x + y*I`, which is the same two-argument arctangent.
-/

open Real

noncomputable section

namespace Katpoint

/-- numpy's two-argument arctangent: `arctan2 y x` is the angle of the point
`(x, y)`, in `(-pi, pi]`, modelled as `Complex.arg (x + y*I)`. -/
def arctan2 (y x : ℝ) : ℝ := Complex.arg (↑x + ↑y * Complex.I)

/-! ### Spherical projections (`projection.py`) -/

/-- `sphere_to_plane_SIN` from `projection.py`: orthographic projection.
Checks the elevation range, then rejects targets more than 90 degrees from
the reference point, then returns the orthographic components. -/
def sphere_to_plane_SIN (az0 el0 az el : ℝ) : Except String (ℝ × ℝ) :=
  if |el0| > π / 2 ∨ |el| > π / 2 then
    .error "Elevation angle outside range of +- pi/2 radians"
  else
    let cos_theta := Real.sin el * Real.sin el0 +
      Real.cos el * Real.cos el0 * Real.cos (az - az0)
    if cos_theta < 0 then
      .error "Target point more than 90 degrees away from reference point"
    else
      .ok (Real.cos el * Real.sin (az - az0),
           Real.sin el * Real.cos el0 -
             Real.cos el * Real.sin el0 * Real.cos (az - az0))

/-- `plane_to_sphere_SIN` from `projection.py`: orthographic deprojection.
Rejects plane vectors longer than 1, recovers the elevation via `arcsin` of a
convex combination and the azimuth via `arctan2`. -/
def plane_to_sphere_SIN (az0 el0 x y : ℝ) : Except String (ℝ × ℝ) :=
  let sin2_theta := x * x + y * y
  if sin2_theta > 1 then
    .error "Length of (x, y) vector bigger than 1.0"
  else
    let cos_theta := Real.sqrt (1 - sin2_theta)
    let sin_el := Real.sin el0 * cos_theta + Real.cos el0 * y
    if |sin_el| > 1 then
      .error "(x, y) coordinates out of range"
    else
      let el := Real.arcsin sin_el
      let cos_el_cos_daz := Real.cos el0 * cos_theta - Real.sin el0 * y
      .ok (az0 + arctan2 x cos_el_cos_daz, el)

/-- `sphere_to_plane_TAN` from `projection.py`: gnomonic projection.  The
orthographic components divided by `cos theta`; targets 90 degrees or more
from the reference are rejected. -/
def sphere_to_plane_TAN (az0 el0 az el : ℝ) : Except String (ℝ × ℝ) :=
  if |el0| > π / 2 ∨ |el| > π / 2 then
    .error "Elevation angle outside range of +- pi/2 radians"
  else
    let cos_theta := Real.sin el * Real.sin el0 +
      Real.cos el * Real.cos el0 * Real.cos (az - az0)
    if cos_theta ≤ 0 then
      .error "Target point 90 degrees or more away from reference point"
    else
      .ok (Real.cos el * Real.sin (az - az0) / cos_theta,
           (Real.sin el * Real.cos el0 -
             Real.cos el * Real.sin el0 * Real.cos (az - az0)) / cos_theta)

/-- `plane_to_sphere_TAN` from `projection.py`: gnomonic deprojection.  Keeps
the (unnecessarily strict) AIPS check that `(x, y)` lies in the unit disc. -/
def plane_to_sphere_TAN (az0 el0 x y : ℝ) : Except String (ℝ × ℝ) :=
  let tan2_theta := x * x + y * y
  if tan2_theta > 1 then
    .error "Length of (x, y) vector bigger than 1.0"
  else
    let den := Real.cos el0 - y * Real.sin el0
    let az := az0 + arctan2 x den
    let el := Real.arctan (Real.cos (az - az0) *
      (Real.sin el0 + y * Real.cos el0) / den)
    .ok (az, el)

/-- `sphere_to_plane_ARC` from `projection.py`: zenithal equidistant
projection.  `cos theta` is clipped to `[-1, 1]` before `arccos`, and the
`theta = 0` removable singularity of `theta / sin theta` is special-cased. -/
def sphere_to_plane_ARC (az0 el0 az el : ℝ) : Except String (ℝ × ℝ) :=
  if |el0| > π / 2 ∨ |el| > π / 2 then
    .error "Elevation angle outside range of +- pi/2 radians"
  else
    let cos_theta := Real.sin el * Real.sin el0 +
      Real.cos el * Real.cos el0 * Real.cos (az - az0)
    let theta := Real.arccos (min (max cos_theta (-1)) 1)
    let scale := if theta = 0 then 1 else theta / Real.sin theta
    .ok (scale * (Real.cos el * Real.sin (az - az0)),
         scale * (Real.sin el * Real.cos el0 -
           Real.cos el * Real.sin el0 * Real.cos (az - az0)))

/-- `plane_to_sphere_ARC` from `projection.py`: zenithal equidistant
deprojection.  Rejects plane vectors longer than `pi`; the `theta = 0` case
of `sin theta / theta` is special-cased. -/
def plane_to_sphere_ARC (az0 el0 x y : ℝ) : Except String (ℝ × ℝ) :=
  let theta := Real.sqrt (x * x + y * y)
  if theta > π then
    .error "Length of (x, y) vector bigger than pi"
  else
    let cos_theta := Real.cos theta
    let scale := if theta = 0 then 1 else Real.sin theta / theta
    let sin_el := Real.cos el0 * scale * y + Real.sin el0 * cos_theta
    if |sin_el| > 1 then
      .error "(x, y) coordinates out of range"
    else
      let el := Real.arcsin sin_el
      let num := x * scale * Real.cos el0
      let den := cos_theta - sin_el * Real.sin el0
      .ok (az0 + arctan2 num den, el)

/-- `sphere_to_plane_STG` from `projection.py`: stereographic projection.
Rejects targets within about 180 degrees of the antipode of the reference
(`1 + cos theta < 1e-5`). -/
def sphere_to_plane_STG (az0 el0 az el : ℝ) : Except String (ℝ × ℝ) :=
  if |el0| > π / 2 ∨ |el| > π / 2 then
    .error "Elevation angle outside range of +- pi/2 radians"
  else
    let cos_theta := Real.sin el * Real.sin el0 +
      Real.cos el * Real.cos el0 * Real.cos (az - az0)
    let den := 1 + cos_theta
    if den < 1e-5 then
      .error "Target point ~180 degrees away from reference point"
    else
      .ok (2 * (Real.cos el * Real.sin (az - az0)) / den,
           2 * (Real.sin el * Real.cos el0 -
             Real.cos el * Real.sin el0 * Real.cos (az - az0)) / den)

/-- `plane_to_sphere_STG` from `projection.py`: stereographic deprojection.
No domain restriction on `(x, y)`; `cos theta = (4 - r2) / (4 + r2)`. -/
def plane_to_sphere_STG (az0 el0 x y : ℝ) : Except String (ℝ × ℝ) :=
  let r2 := x * x + y * y
  let cos_theta := (4 - r2) / (4 + r2)
  let scale := (1 + cos_theta) / 2
  let sin_el := Real.cos el0 * scale * y + Real.sin el0 * cos_theta
  if |sin_el| > 1 then
    .error "(x, y) coordinates out of range"
  else
    let el := Real.arcsin sin_el
    let num := x * scale * Real.cos el0
    let den := cos_theta - sin_el * Real.sin el0
    .ok (az0 + arctan2 num den, el)

/-- The four projection families offered by the selector dictionaries at the
bottom of `projection.py`. -/
inductive Family
  | SIN
  | TAN
  | ARC
  | STG
deriving DecidableEq

/-- The `sphere_to_plane` selector dictionary from `projection.py`. -/
def sphere_to_plane : Family → ℝ → ℝ → ℝ → ℝ → Except String (ℝ × ℝ)
  | .SIN => sphere_to_plane_SIN
  | .TAN => sphere_to_plane_TAN
  | .ARC => sphere_to_plane_ARC
  | .STG => sphere_to_plane_STG

/-- The `plane_to_sphere` selector dictionary from `projection.py`. -/
def plane_to_sphere : Family → ℝ → ℝ → ℝ → ℝ → Except String (ℝ × ℝ)
  | .SIN => plane_to_sphere_SIN
  | .TAN => plane_to_sphere_TAN
  | .ARC => plane_to_sphere_ARC
  | .STG => plane_to_sphere_STG

end Katpoint

namespace Katpoint

/-! ### C4: literal projection corner cases -/

/-- **C4**: the projection engine returns the exact corner values:
`sphere_to_plane SIN 0 0 0 0 = (0, 0)`, `sphere_to_plane SIN 0 0 (pi/2) 0 =
(1, 0)`, `sphere_to_plane ARC 0 0 (pi/2) 0 = (pi/2, 0)`, `sphere_to_plane
STG 0 0 (pi/2) 0 = (2, 0)`, and with the reference at the pole
`sphere_to_plane SIN 0 (pi/2) 0 0 = (0, -1)`. -/
theorem C4_projection_corner_cases :
    sphere_to_plane .SIN 0 0 0 0 = .ok (0, 0) ∧
    sphere_to_plane .SIN 0 0 (π / 2) 0 = .ok (1, 0) ∧
    sphere_to_plane .ARC 0 0 (π / 2) 0 = .ok (π / 2, 0) ∧
    sphere_to_plane .STG 0 0 (π / 2) 0 = .ok (2, 0) ∧
    sphere_to_plane .SIN 0 (π / 2) 0 0 = .ok (0, -1) := by
  have hpi : (0:ℝ) < π / 2 := by positivity
  have hn : ¬ (|(0:ℝ)| > π / 2 ∨ |(0:ℝ)| > π / 2) := by
    simp [abs_of_nonneg, le_of_lt hpi]
  have hhalf : ¬ (|π / 2| > π / 2 ∨ |(0:ℝ)| > π / 2) := by
    rw [abs_of_nonneg (le_of_lt hpi), abs_of_nonneg (le_refl 0)]
    simp [le_of_lt hpi]
  refine ⟨?_, ?_, ?_, ?_, ?_⟩
  · have hc1 : ¬ (π / 2 < (0:ℝ)) := not_lt.mpr (by positivity)
    norm_num [sphere_to_plane, sphere_to_plane_SIN, hn, hc1]
  · simp only [sphere_to_plane, sphere_to_plane_SIN, sub_zero, Real.sin_zero,
      Real.cos_zero, Real.sin_pi_div_two, Real.cos_pi_div_two, hn, if_false]
    norm_num
  · simp only [sphere_to_plane, sphere_to_plane_ARC, sub_zero, Real.sin_zero,
      Real.cos_zero, Real.sin_pi_div_two, Real.cos_pi_div_two, hn, if_false]
    norm_num
    exact fun h => absurd h Real.pi_ne_zero
  · simp only [sphere_to_plane, sphere_to_plane_STG, sub_zero, Real.sin_zero,
      Real.cos_zero, Real.sin_pi_div_two, Real.cos_pi_div_two, hn, if_false]
    norm_num
  · simp only [sphere_to_plane, sphere_to_plane_SIN, sub_zero, Real.sin_zero,
      Real.cos_zero, Real.sin_pi_div_two, Real.cos_pi_div_two]
    rw [if_neg hhalf]
    norm_num

/-! ### C3: projection domain errors -/

/-- **C3 is false as stated**: the claim requires `plane_to_sphere` to raise a
`DomainError` whenever the reference latitude lies outside `[-pi/2, pi/2]`,
but `plane_to_sphere_SIN` performs no such check: with `ref_lat = pi` it
returns `(pi, 0)` instead of raising. -/
theorem C3_counterexample_no_ref_lat_check_on_plane_side :
    plane_to_sphere .SIN 0 π 0 0 = .ok (π, 0) := by
  show plane_to_sphere_SIN 0 π 0 0 = .ok (π, 0)
  unfold plane_to_sphere_SIN arctan2
  norm_num [Real.sin_pi, Real.cos_pi]

/-- **C3 (amended)**: the `[-pi/2, pi/2]` latitude range check applies to the
inputs of `sphere_to_plane` only (every family raises on an out-of-range
`ref_lat` or `lat` there, while `plane_to_sphere` checks only its plane-side
domain).  The per-family domain violations raise the documented errors:
`cos theta < 0` for SIN, `cos theta <= 0` for TAN and `1 + cos theta < 1e-5`
for STG on the sphere side; `x^2 + y^2 > 1` for SIN/TAN and
`sqrt (x^2 + y^2) > pi` for ARC on the plane side.  In particular
`sphere_to_plane SIN 0 0 pi 0` and `sphere_to_plane TAN 0 0 (pi/2) 0`
raise. -/
theorem C3_domain_errors :
    (∀ F az0 el0 az el, |el0| > π / 2 ∨ |el| > π / 2 →
      sphere_to_plane F az0 el0 az el =
        .error "Elevation angle outside range of +- pi/2 radians") ∧
    (∀ az0 el0 az el, |el0| ≤ π / 2 → |el| ≤ π / 2 →
      Real.sin el * Real.sin el0 +
        Real.cos el * Real.cos el0 * Real.cos (az - az0) < 0 →
      sphere_to_plane .SIN az0 el0 az el =
        .error "Target point more than 90 degrees away from reference point") ∧
    (∀ az0 el0 az el, |el0| ≤ π / 2 → |el| ≤ π / 2 →
      Real.sin el * Real.sin el0 +
        Real.cos el * Real.cos el0 * Real.cos (az - az0) ≤ 0 →
      sphere_to_plane .TAN az0 el0 az el =
        .error "Target point 90 degrees or more away from reference point") ∧
    (∀ az0 el0 az el, |el0| ≤ π / 2 → |el| ≤ π / 2 →
      1 + (Real.sin el * Real.sin el0 +
        Real.cos el * Real.cos el0 * Real.cos (az - az0)) < 1e-5 →
      sphere_to_plane .STG az0 el0 az el =
        .error "Target point ~180 degrees away from reference point") ∧
    (∀ az0 el0 x y, x * x + y * y > 1 →
      plane_to_sphere .SIN az0 el0 x y =
        .error "Length of (x, y) vector bigger than 1.0" ∧
      plane_to_sphere .TAN az0 el0 x y =
        .error "Length of (x, y) vector bigger than 1.0") ∧
    (∀ az0 el0 x y, Real.sqrt (x * x + y * y) > π →
      plane_to_sphere .ARC az0 el0 x y =
        .error "Length of (x, y) vector bigger than pi") ∧
    (∃ e, sphere_to_plane .SIN 0 0 π 0 = .error e) ∧
    (∃ e, sphere_to_plane .TAN 0 0 (π / 2) 0 = .error e) := by
  refine ⟨?_, ?_, ?_, ?_, ?_, ?_, ?_, ?_⟩
  · intro F az0 el0 az el h
    cases F <;>
      simp only [sphere_to_plane, sphere_to_plane_SIN, sphere_to_plane_TAN,
        sphere_to_plane_ARC, sphere_to_plane_STG, if_pos h]
  · intro az0 el0 az el h0 h1 hc
    have hr : ¬ (|el0| > π / 2 ∨ |el| > π / 2) := by
      push_neg
      exact ⟨h0, h1⟩
    simp only [sphere_to_plane, sphere_to_plane_SIN, if_neg hr, if_pos hc]
  · intro az0 el0 az el h0 h1 hc
    have hr : ¬ (|el0| > π / 2 ∨ |el| > π / 2) := by
      push_neg
      exact ⟨h0, h1⟩
    simp only [sphere_to_plane, sphere_to_plane_TAN, if_neg hr, if_pos hc]
  · intro az0 el0 az el h0 h1 hc
    have hr : ¬ (|el0| > π / 2 ∨ |el| > π / 2) := by
      push_neg
      exact ⟨h0, h1⟩
    simp only [sphere_to_plane, sphere_to_plane_STG, if_neg hr, if_pos hc]
  · intro az0 el0 x y h
    exact ⟨by simp only [plane_to_sphere, plane_to_sphere_SIN, if_pos h],
           by simp only [plane_to_sphere, plane_to_sphere_TAN, if_pos h]⟩
  · intro az0 el0 x y h
    simp only [plane_to_sphere, plane_to_sphere_ARC, if_pos h]
  · refine ⟨"Target point more than 90 degrees away from reference point", ?_⟩
    have h0 : ¬ (|(0:ℝ)| > π / 2 ∨ |(0:ℝ)| > π / 2) := by
      push_neg
      constructor <;> rw [abs_of_nonneg (le_refl (0:ℝ))] <;> positivity
    have hc : Real.sin 0 * Real.sin 0 +
        Real.cos 0 * Real.cos 0 * Real.cos (π - 0) < 0 := by
      rw [Real.sin_zero, Real.cos_zero, sub_zero, Real.cos_pi]
      norm_num
    simp only [sphere_to_plane, sphere_to_plane_SIN, if_neg h0, if_pos hc]
  · refine ⟨"Target point 90 degrees or more away from reference point", ?_⟩
    have h0 : ¬ (|(0:ℝ)| > π / 2 ∨ |(0:ℝ)| > π / 2) := by
      push_neg
      constructor <;> rw [abs_of_nonneg (le_refl (0:ℝ))] <;> positivity
    have hc : Real.sin 0 * Real.sin 0 +
        Real.cos 0 * Real.cos 0 * Real.cos (π / 2 - 0) ≤ 0 := by
      rw [Real.sin_zero, Real.cos_zero, sub_zero, Real.cos_pi_div_two]
      norm_num
    simp only [sphere_to_plane, sphere_to_plane_TAN, if_neg h0, if_pos hc]

/-- Witness for `C3_domain_errors` at a concrete input: an out-of-range
reference latitude of `pi` makes `sphere_to_plane SIN` raise. -/
theorem C3_domain_errors_witness :
    sphere_to_plane .SIN 0 π 0 0 =
      .error "Elevation angle outside range of +- pi/2 radians" :=
  C3_domain_errors.1 .SIN 0 π 0 0 (Or.inl (by
    rw [abs_of_nonneg Real.pi_nonneg]
    linarith [Real.pi_pos]))

/-! ### Round-trip helper lemmas

The orthographic components `(xu, yu)` and the direction cosine `z` of a
target relative to a reference direction satisfy `xu^2 + yu^2 + z^2 = 1`,
and the reference-frame rotation can be undone with convex combinations.
These identities drive all four projections' round trips. -/

theorem ortho_sq_sum (el0 el d : ℝ) :
    (Real.cos el * Real.sin d) ^ 2 +
    (Real.sin el * Real.cos el0 - Real.cos el * Real.sin el0 * Real.cos d) ^ 2 +
    (Real.sin el * Real.sin el0 + Real.cos el * Real.cos el0 * Real.cos d) ^ 2 = 1 := by
  have h0 := Real.sin_sq_add_cos_sq el0
  have he := Real.sin_sq_add_cos_sq el
  have hd := Real.sin_sq_add_cos_sq d
  linear_combination (Real.sin el ^ 2 + Real.cos el ^ 2 * Real.cos d ^ 2) * h0 +
    Real.cos el ^ 2 * hd + he

theorem sin_el_recover (el0 el d : ℝ) :
    Real.sin el0 * (Real.sin el * Real.sin el0 + Real.cos el * Real.cos el0 * Real.cos d) +
    Real.cos el0 * (Real.sin el * Real.cos el0 - Real.cos el * Real.sin el0 * Real.cos d) =
    Real.sin el := by
  linear_combination Real.sin el * Real.sin_sq_add_cos_sq el0

theorem cccd_recover (el0 el d : ℝ) :
    Real.cos el0 * (Real.sin el * Real.sin el0 + Real.cos el * Real.cos el0 * Real.cos d) -
    Real.sin el0 * (Real.sin el * Real.cos el0 - Real.cos el * Real.sin el0 * Real.cos d) =
    Real.cos el * Real.cos d := by
  linear_combination Real.cos el * Real.cos d * Real.sin_sq_add_cos_sq el0

theorem arctan2_rpolar {r d : ℝ} (hr : 0 < r) (hd : d ∈ Set.Ioc (-π) π) :
    arctan2 (r * Real.sin d) (r * Real.cos d) = d := by
  unfold arctan2
  have hc : ((r * Real.cos d : ℝ) : ℂ) + ((r * Real.sin d : ℝ) : ℂ) * Complex.I =
      ↑r * (Complex.cos ↑d + Complex.sin ↑d * Complex.I) := by
    push_cast
    rw [← Complex.ofReal_cos, ← Complex.ofReal_sin]
    ring
  rw [hc, Complex.arg_mul_cos_add_sin_mul_I hr hd]

theorem sin_arctan2 (y x : ℝ) :
    Real.sin (arctan2 y x) = y / Real.sqrt (x ^ 2 + y ^ 2) := by
  unfold arctan2
  rw [Complex.sin_arg, Complex.abs_add_mul_I]
  simp

theorem cos_arctan2 (y x : ℝ) (h : ¬ (x = 0 ∧ y = 0)) :
    Real.cos (arctan2 y x) = x / Real.sqrt (x ^ 2 + y ^ 2) := by
  unfold arctan2
  have hz : ((x : ℂ) + (y : ℂ) * Complex.I) ≠ 0 := by
    simp only [ne_eq, Complex.ext_iff, Complex.add_re, Complex.ofReal_re, Complex.mul_re,
      Complex.I_re, Complex.I_im, Complex.ofReal_im, Complex.add_im, Complex.mul_im,
      Complex.zero_re, Complex.zero_im]
    intro hc
    exact h ⟨by linarith [hc.1], by linarith [hc.2]⟩
  rw [Complex.cos_arg hz, Complex.abs_add_mul_I]
  simp

theorem arctan2_zero_zero : arctan2 0 0 = 0 := by
  unfold arctan2
  norm_num [Complex.arg_zero]

theorem arctan2_zero_of_nonneg {x : ℝ} (hx : 0 ≤ x) : arctan2 0 x = 0 := by
  unfold arctan2
  norm_num [Complex.arg_ofReal_of_nonneg hx]

/-- SIN projection forward round trip: projecting a target strictly inside
the reference hemisphere (and off the poles) and deprojecting recovers it
exactly. -/
theorem roundtrip_SIN_fwd (az0 el0 az el : ℝ)
    (h0 : |el0| ≤ π / 2) (h1 : |el| < π / 2)
    (hd : az - az0 ∈ Set.Ioc (-π) π)
    (hdom : 0 ≤ Real.sin el * Real.sin el0 +
      Real.cos el * Real.cos el0 * Real.cos (az - az0)) :
    ∃ x y, sphere_to_plane_SIN az0 el0 az el = .ok (x, y) ∧
           plane_to_sphere_SIN az0 el0 x y = .ok (az, el) := by
  have h1' := abs_le.mp h1.le
  have hce : 0 < Real.cos el := Real.cos_pos_of_mem_Ioo ⟨(abs_lt.mp h1).1, (abs_lt.mp h1).2⟩
  have hrange : ¬ (|el0| > π / 2 ∨ |el| > π / 2) := by
    push_neg
    exact ⟨h0, h1.le⟩
  have hsum := ortho_sq_sum el0 el (az - az0)
  set d := az - az0 with hdd
  set xu := Real.cos el * Real.sin d with hxu
  set yu := Real.sin el * Real.cos el0 - Real.cos el * Real.sin el0 * Real.cos d with hyu
  set z := Real.sin el * Real.sin el0 + Real.cos el * Real.cos el0 * Real.cos d with hzz
  refine ⟨xu, yu, ?_, ?_⟩
  · simp only [sphere_to_plane_SIN]
    rw [if_neg hrange, if_neg (not_lt.mpr hdom)]
  · have hr1 : ¬ (xu * xu + yu * yu > 1) := by
      rw [not_lt]
      nlinarith [sq_nonneg z]
    have hsqrt : Real.sqrt (1 - (xu * xu + yu * yu)) = z := by
      rw [show 1 - (xu * xu + yu * yu) = z ^ 2 by linear_combination (-1 : ℝ) * hsum]
      exact Real.sqrt_sq hdom
    have hsin : Real.sin el0 * z + Real.cos el0 * yu = Real.sin el := by
      rw [hzz, hyu]
      exact sin_el_recover el0 el d
    have hcc : Real.cos el0 * z - Real.sin el0 * yu = Real.cos el * Real.cos d := by
      rw [hzz, hyu]
      exact cccd_recover el0 el d
    have habs : ¬ (|Real.sin el| > 1) := by
      rw [not_lt]
      exact abs_le.mpr ⟨Real.neg_one_le_sin el, Real.sin_le_one el⟩
    simp only [plane_to_sphere_SIN]
    rw [if_neg hr1, hsqrt, hsin, hcc, if_neg habs,
      Real.arcsin_sin h1'.1 h1'.2, hxu, arctan2_rpolar hce hd]
    rw [show az0 + d = az by rw [hdd]; ring]

/-- SIN projection reverse round trip: deprojecting any point of the closed
unit disc and projecting again recovers it exactly. -/
theorem roundtrip_SIN_rev (az0 el0 x y : ℝ)
    (h0 : |el0| ≤ π / 2) (hr : x * x + y * y ≤ 1) :
    ∃ az el, plane_to_sphere_SIN az0 el0 x y = .ok (az, el) ∧
             sphere_to_plane_SIN az0 el0 az el = .ok (x, y) := by
  have h0sq := Real.sin_sq_add_cos_sq el0
  set z := Real.sqrt (1 - (x * x + y * y)) with hzdef
  have hz0 : 0 ≤ z := Real.sqrt_nonneg _
  have hz2 : z ^ 2 = 1 - (x * x + y * y) := Real.sq_sqrt (by linarith)
  set s := Real.sin el0 * z + Real.cos el0 * y with hsdef
  set B := Real.cos el0 * z - Real.sin el0 * y with hBdef
  have hsB : s ^ 2 + B ^ 2 = z ^ 2 + y ^ 2 := by
    rw [hsdef, hBdef]
    linear_combination (z ^ 2 + y ^ 2) * h0sq
  have hs1 : |s| ≤ 1 := by
    rw [abs_le_one_iff_mul_self_le_one]
    nlinarith [sq_nonneg B, sq_nonneg x]
  have hs1' := abs_le.mp hs1
  set el := Real.arcsin s with heldef
  have hsinel : Real.sin el = s := Real.sin_arcsin hs1'.1 hs1'.2
  have helr : |el| ≤ π / 2 :=
    abs_le.mpr ⟨Real.neg_pi_div_two_le_arcsin s, Real.arcsin_le_pi_div_two s⟩
  have hcosel : Real.cos el = Real.sqrt (B ^ 2 + x ^ 2) := by
    rw [heldef, Real.cos_arcsin]
    congr 1
    linear_combination -hz2 - hsB
  have hcos0 : 0 ≤ Real.cos el := by
    rw [hcosel]
    exact Real.sqrt_nonneg _
  set d := arctan2 x B with hddef
  -- the two key reconstruction facts, valid also in the degenerate pole case
  have hkey : Real.cos el * Real.cos d = B ∧ Real.cos el * Real.sin d = x := by
    rcases eq_or_lt_of_le (by positivity : (0:ℝ) ≤ B ^ 2 + x ^ 2) with hzero | hpos
    · have hB0 : B = 0 := by nlinarith [sq_nonneg B, sq_nonneg x]
      have hx0 : x = 0 := by nlinarith [sq_nonneg B, sq_nonneg x]
      have hd0 : d = 0 := by rw [hddef, hx0, hB0, arctan2_zero_zero]
      rw [hd0, hB0, hx0, Real.cos_zero, Real.sin_zero]
      constructor <;> [skip; ring]
      rw [hcosel, hB0, hx0]
      norm_num
    · have hρ : 0 < Real.sqrt (B ^ 2 + x ^ 2) := Real.sqrt_pos.mpr hpos
      constructor
      · rw [hddef, cos_arctan2 x B (by
          intro hc
          rw [hc.1, hc.2] at hpos
          norm_num at hpos), hcosel]
        rw [mul_comm, div_mul_cancel₀ _ (ne_of_gt hρ)]
      · rw [hddef, sin_arctan2 x B, hcosel]
        rw [mul_comm, div_mul_cancel₀ _ (ne_of_gt hρ)]
  have hcth : Real.sin el * Real.sin el0 + Real.cos el * Real.cos el0 * Real.cos d = z := by
    have h5 : Real.cos el * Real.cos el0 * Real.cos d = Real.cos el0 * B := by
      rw [← hkey.1]
      ring
    rw [hsinel, h5, hsdef, hBdef]
    linear_combination z * h0sq
  have hyy : Real.sin el * Real.cos el0 - Real.cos el * Real.sin el0 * Real.cos d = y := by
    have h5 : Real.cos el * Real.sin el0 * Real.cos d = Real.sin el0 * B := by
      rw [← hkey.1]
      ring
    rw [hsinel, h5, hsdef, hBdef]
    linear_combination y * h0sq
  refine ⟨az0 + d, el, ?_, ?_⟩
  · have hr1 : ¬ (x * x + y * y > 1) := not_lt.mpr hr
    have habs : ¬ (|s| > 1) := not_lt.mpr hs1
    simp only [plane_to_sphere_SIN]
    rw [if_neg hr1, ← hzdef, ← hsdef, if_neg habs, ← heldef, ← hBdef, ← hddef]
  · have hrange : ¬ (|el0| > π / 2 ∨ |el| > π / 2) := by
      push_neg
      exact ⟨h0, helr⟩
    have hdaz : az0 + d - az0 = d := by ring
    simp only [sphere_to_plane_SIN]
    rw [if_neg hrange, hdaz, hcth, if_neg (not_lt.mpr hz0), hkey.2, hyy]

/-- TAN projection forward round trip: a target strictly inside the
reference hemisphere, off the poles and away from the `cos (lon - ref_lon) =
0` degeneracy, whose gnomonic image lies in the unit disc accepted by
`plane_to_sphere_TAN`, is recovered exactly. -/
theorem roundtrip_TAN_fwd (az0 el0 az el : ℝ)
    (h0 : |el0| ≤ π / 2) (h1 : |el| < π / 2)
    (hd : az - az0 ∈ Set.Ioc (-π) π)
    (hcd : Real.cos (az - az0) ≠ 0)
    (hdom : 0 < Real.sin el * Real.sin el0 +
      Real.cos el * Real.cos el0 * Real.cos (az - az0))
    (hdisc : (Real.cos el * Real.sin (az - az0)) ^ 2 +
      (Real.sin el * Real.cos el0 - Real.cos el * Real.sin el0 * Real.cos (az - az0)) ^ 2 ≤
      (Real.sin el * Real.sin el0 + Real.cos el * Real.cos el0 * Real.cos (az - az0)) ^ 2) :
    ∃ x y, sphere_to_plane_TAN az0 el0 az el = .ok (x, y) ∧
           plane_to_sphere_TAN az0 el0 x y = .ok (az, el) := by
  have h1' := abs_lt.mp h1
  have hce : 0 < Real.cos el := Real.cos_pos_of_mem_Ioo ⟨h1'.1, h1'.2⟩
  have hrange : ¬ (|el0| > π / 2 ∨ |el| > π / 2) := by
    push_neg
    exact ⟨h0, h1.le⟩
  set d := az - az0 with hdd
  set xu := Real.cos el * Real.sin d with hxu
  set yu := Real.sin el * Real.cos el0 - Real.cos el * Real.sin el0 * Real.cos d with hyu
  set z := Real.sin el * Real.sin el0 + Real.cos el * Real.cos el0 * Real.cos d with hzz
  refine ⟨xu / z, yu / z, ?_, ?_⟩
  · simp only [sphere_to_plane_TAN]
    rw [if_neg hrange, if_neg (not_le.mpr hdom)]
  · have hsplit : xu / z * (xu / z) + yu / z * (yu / z) = (xu ^ 2 + yu ^ 2) / z ^ 2 := by
      field_simp
      ring
    have hin : ¬ (xu / z * (xu / z) + yu / z * (yu / z) > 1) := by
      rw [not_lt, hsplit, div_le_one (pow_pos hdom 2)]
      exact hdisc
    simp only [plane_to_sphere_TAN]
    rw [if_neg hin]
    have hccc : Real.cos el0 * z - Real.sin el0 * yu = Real.cos el * Real.cos d := by
      rw [hzz, hyu]
      exact cccd_recover el0 el d
    have hsss : Real.sin el0 * z + Real.cos el0 * yu = Real.sin el := by
      rw [hzz, hyu]
      exact sin_el_recover el0 el d
    have hden : Real.cos el0 - yu / z * Real.sin el0 = Real.cos el / z * Real.cos d := by
      field_simp
      linear_combination hccc
    rw [hden]
    have hxarg : xu / z = Real.cos el / z * Real.sin d := by
      rw [hxu]
      ring
    rw [hxarg, arctan2_rpolar (div_pos hce hdom) hd]
    rw [show az0 + d - az0 = d from by ring]
    have hu : Real.sin el0 + yu / z * Real.cos el0 = Real.sin el / z := by
      field_simp
      linear_combination hsss
    rw [hu]
    have harg : Real.cos d * (Real.sin el / z) / (Real.cos el / z * Real.cos d) =
        Real.tan el := by
      rw [Real.tan_eq_sin_div_cos]
      field_simp
      ring
    rw [harg, Real.arctan_tan h1'.1 h1'.2]
    rw [show az0 + d = az from by rw [hdd]; ring]

/-- TAN projection reverse round trip: any point of the unit disc whose
gnomonic denominator `cos ref_lat - y * sin ref_lat` does not vanish is
recovered exactly. -/
theorem roundtrip_TAN_rev (az0 el0 x y : ℝ)
    (h0 : |el0| ≤ π / 2) (hr : x * x + y * y ≤ 1)
    (hden : Real.cos el0 - y * Real.sin el0 ≠ 0) :
    ∃ az el, plane_to_sphere_TAN az0 el0 x y = .ok (az, el) ∧
             sphere_to_plane_TAN az0 el0 az el = .ok (x, y) := by
  have h0sq := Real.sin_sq_add_cos_sq el0
  set den := Real.cos el0 - y * Real.sin el0 with hdendef
  set u := Real.sin el0 + y * Real.cos el0 with hudef
  have hρpos : 0 < den ^ 2 + x ^ 2 := by positivity
  set ρ := Real.sqrt (den ^ 2 + x ^ 2) with hρdef
  have hρ : 0 < ρ := Real.sqrt_pos.mpr hρpos
  have hρ2 : ρ ^ 2 = den ^ 2 + x ^ 2 := Real.sq_sqrt hρpos.le
  set d := arctan2 x den with hddef
  have hcd : Real.cos d = den / ρ := by
    rw [hddef]
    exact cos_arctan2 x den (fun hc => hden hc.1)
  have hsd : Real.sin d = x / ρ := by
    rw [hddef]
    exact sin_arctan2 x den
  set w := Real.sqrt (1 + (u / ρ) ^ 2) with hwdef
  have hw : 0 < w := Real.sqrt_pos.mpr (by positivity)
  have hw2 : w ^ 2 = 1 + (u / ρ) ^ 2 := Real.sq_sqrt (by positivity)
  set el := Real.arctan (u / ρ) with heldef
  have hsinel : Real.sin el = u / ρ / w := by
    rw [heldef, Real.sin_arctan]
  have hcosel : Real.cos el = 1 / w := by
    rw [heldef, Real.cos_arctan]
  have helr : |el| ≤ π / 2 := by
    rw [heldef]
    exact abs_le.mpr ⟨(Real.neg_pi_div_two_lt_arctan _).le, (Real.arctan_lt_pi_div_two _).le⟩
  have huden : u * Real.sin el0 + Real.cos el0 * den = 1 := by
    rw [hudef, hdendef]
    linear_combination (1 + y * 0) * h0sq
  have hucden : u * Real.cos el0 - Real.sin el0 * den = y := by
    rw [hudef, hdendef]
    linear_combination y * h0sq
  have hX : Real.cos d * u / den = u / ρ := by
    rw [hcd]
    field_simp
    ring
  have hcth : Real.sin el * Real.sin el0 + Real.cos el * Real.cos el0 * Real.cos d =
      1 / (ρ * w) := by
    rw [hsinel, hcosel, hcd]
    field_simp
    linear_combination huden + (w ^ 2 * ρ ^ 2 - 1) * h0sq
  refine ⟨az0 + d, el, ?_, ?_⟩
  · simp only [plane_to_sphere_TAN]
    rw [if_neg (not_lt.mpr hr), ← hdendef, ← hudef, ← hddef]
    rw [show az0 + d - az0 = d from by ring]
    rw [hX, ← heldef]
  · have hrange : ¬ (|el0| > π / 2 ∨ |el| > π / 2) := by
      push_neg
      exact ⟨h0, helr⟩
    simp only [sphere_to_plane_TAN]
    rw [if_neg hrange]
    rw [show az0 + d - az0 = d from by ring]
    rw [hcth, if_neg (not_le.mpr (by positivity))]
    simp only [Except.ok.injEq, Prod.mk.injEq]
    constructor
    · rw [hcosel, hsd]
      field_simp
      exact Or.inl (mul_comm ρ w)
    · rw [hsinel, hcosel, hcd]
      field_simp
      linear_combination ρ * w * hucden + (y * w ^ 2 * ρ ^ 2 - y * w * ρ) * h0sq

/-- `arctan2` is invariant under scaling both arguments by a positive
factor. -/
theorem arctan2_smul {k : ℝ} (y x : ℝ) (hk : 0 < k) :
    arctan2 (k * y) (k * x) = arctan2 y x := by
  unfold arctan2
  have hc : ((k * x : ℝ) : ℂ) + ((k * y : ℝ) : ℂ) * Complex.I =
      ↑k * (↑x + ↑y * Complex.I) := by
    push_cast
    ring
  rw [hc, Complex.arg_real_mul _ hk]

/-- Key reconstruction fact behind every deprojection round trip: if
`c = sqrt (B^2 + X^2)` then `(c * cos, c * sin)` of `arctan2 X B` recovers
`(B, X)`, also in the degenerate case `B = X = 0`. -/
theorem cos_sin_arctan2_of_sqrt {X B c : ℝ} (hc : c = Real.sqrt (B ^ 2 + X ^ 2)) :
    c * Real.cos (arctan2 X B) = B ∧ c * Real.sin (arctan2 X B) = X := by
  rcases eq_or_lt_of_le (by positivity : (0:ℝ) ≤ B ^ 2 + X ^ 2) with hzero | hpos
  · have hB0 : B = 0 := by nlinarith [sq_nonneg B, sq_nonneg X]
    have hX0 : X = 0 := by nlinarith [sq_nonneg B, sq_nonneg X]
    have hc0 : c = 0 := by
      rw [hc, hB0, hX0]
      norm_num
    rw [hc0, hB0, hX0]
    norm_num
  · have hρ : 0 < Real.sqrt (B ^ 2 + X ^ 2) := Real.sqrt_pos.mpr hpos
    have hBX : ¬ (B = 0 ∧ X = 0) := by
      intro hcon
      rw [hcon.1, hcon.2] at hpos
      norm_num at hpos
    constructor
    · rw [cos_arctan2 X B hBX, hc, mul_comm, div_mul_cancel₀ _ (ne_of_gt hρ)]
    · rw [sin_arctan2 X B, hc, mul_comm, div_mul_cancel₀ _ (ne_of_gt hρ)]

/-- ARC projection forward round trip: a non-antipodal target, with target
and reference strictly off the poles, is recovered exactly. -/
theorem roundtrip_ARC_fwd (az0 el0 az el : ℝ)
    (h0 : |el0| < π / 2) (h1 : |el| < π / 2)
    (hd : az - az0 ∈ Set.Ioc (-π) π)
    (hdom : -1 < Real.sin el * Real.sin el0 +
      Real.cos el * Real.cos el0 * Real.cos (az - az0)) :
    ∃ x y, sphere_to_plane_ARC az0 el0 az el = .ok (x, y) ∧
           plane_to_sphere_ARC az0 el0 x y = .ok (az, el) := by
  have h0sq := Real.sin_sq_add_cos_sq el0
  have h0' := abs_lt.mp h0
  have h1' := abs_lt.mp h1
  have hce : 0 < Real.cos el := Real.cos_pos_of_mem_Ioo ⟨h1'.1, h1'.2⟩
  have hc0 : 0 < Real.cos el0 := Real.cos_pos_of_mem_Ioo ⟨h0'.1, h0'.2⟩
  have hrange : ¬ (|el0| > π / 2 ∨ |el| > π / 2) := by
    push_neg
    exact ⟨h0.le, h1.le⟩
  have hsum := ortho_sq_sum el0 el (az - az0)
  set d := az - az0 with hdd
  set xu := Real.cos el * Real.sin d with hxu
  set yu := Real.sin el * Real.cos el0 - Real.cos el * Real.sin el0 * Real.cos d with hyu
  set z := Real.sin el * Real.sin el0 + Real.cos el * Real.cos el0 * Real.cos d with hzz
  have hzle : z ≤ 1 := by nlinarith [sq_nonneg xu, sq_nonneg yu, sq_nonneg (z - 1)]
  have hclip : min (max z (-1)) 1 = z := by
    rw [max_eq_left (by linarith : (-1:ℝ) ≤ z), min_eq_left hzle]
  rcases eq_or_lt_of_le hzle with hz1 | hzlt
  · -- target coincides with the reference: theta = 0
    have h2 : Real.cos (el - el0) - 1 =
        Real.cos el * Real.cos el0 * (1 - Real.cos d) - (1 - z) := by
      rw [Real.cos_sub, hzz]
      ring
    have hprod : 0 ≤ Real.cos el * Real.cos el0 * (1 - Real.cos d) :=
      mul_nonneg (mul_pos hce hc0).le (by linarith [Real.cos_le_one d])
    have hcos_sub : Real.cos (el - el0) = 1 := by
      have h3 := Real.cos_le_one (el - el0)
      linarith
    have hcd1 : Real.cos d = 1 := by
      have h4 : Real.cos el * Real.cos el0 * (1 - Real.cos d) = 0 := by
        linarith [Real.cos_le_one (el - el0)]
      rcases mul_eq_zero.mp h4 with h5 | h5
      · exact absurd h5 (ne_of_gt (mul_pos hce hc0))
      · linarith
    have hel_eq : el = el0 := by
      have hb1 : -(2 * π) < el - el0 := by linarith [Real.pi_pos]
      have hb2 : el - el0 < 2 * π := by linarith [Real.pi_pos]
      have := (Real.cos_eq_one_iff_of_lt_of_lt hb1 hb2).mp hcos_sub
      linarith
    have hd_eq : d = 0 := by
      have hb1 : -(2 * π) < d := by have := hd.1; linarith [Real.pi_pos]
      have hb2 : d < 2 * π := by have := hd.2; linarith [Real.pi_pos]
      exact (Real.cos_eq_one_iff_of_lt_of_lt hb1 hb2).mp hcd1
    have haz : az = az0 := by
      have h3 : az - az0 = 0 := by rw [← hdd]; exact hd_eq
      linarith
    have hxu0 : xu = 0 := by
      rw [hxu, hd_eq, Real.sin_zero, mul_zero]
    have hyu0 : yu = 0 := by
      rw [hyu, hd_eq, hel_eq, Real.cos_zero]
      ring
    refine ⟨xu, yu, ?_, ?_⟩
    · simp only [sphere_to_plane_ARC]
      rw [if_neg hrange, ← hzz, ← hxu, ← hyu, hclip, hz1, Real.arccos_one,
        if_pos rfl, one_mul, one_mul]
    · rw [hxu0, hyu0, haz, hel_eq]
      simp only [plane_to_sphere_ARC]
      have hs0 : Real.sqrt ((0:ℝ) * 0 + 0 * 0) = 0 := by
        norm_num
      rw [hs0, if_neg (not_lt.mpr Real.pi_nonneg), if_pos rfl, Real.cos_zero]
      have hsin_el : Real.cos el0 * 1 * 0 + Real.sin el0 * 1 = Real.sin el0 := by
        ring
      rw [hsin_el]
      have habs : ¬ (|Real.sin el0| > 1) := by
        rw [not_lt]
        exact abs_le.mpr ⟨Real.neg_one_le_sin el0, Real.sin_le_one el0⟩
      rw [if_neg habs, Real.arcsin_sin h0'.1.le h0'.2.le]
      have hnum : (0:ℝ) * 1 * Real.cos el0 = 0 := by
        ring
      have hannn : (0:ℝ) ≤ 1 - Real.sin el0 * Real.sin el0 := by
        nlinarith [sq_nonneg (Real.cos el0)]
      rw [hnum, arctan2_zero_of_nonneg hannn, add_zero]
  · -- 0 < theta < pi
    set θv := Real.arccos z with hθdef
    have hθpos : 0 < θv := by
      rw [hθdef]
      exact Real.arccos_pos.mpr hzlt
    have hθlt : θv < π := by
      rw [hθdef]
      refine lt_of_le_of_ne (Real.arccos_le_pi z) ?_
      rw [Ne, Real.arccos_eq_pi]
      intro hcon
      linarith
    have hθne : ¬ (θv = 0) := ne_of_gt hθpos
    have hsθ : 0 < Real.sin θv := Real.sin_pos_of_pos_of_lt_pi hθpos hθlt
    have hcθ : Real.cos θv = z := by
      rw [hθdef]
      exact Real.cos_arccos (by linarith) hzle
    have hs2 : Real.sin θv ^ 2 = 1 - z ^ 2 := by
      have hh := Real.sin_sq_add_cos_sq θv
      rw [hcθ] at hh
      linarith
    have hxy2 : xu ^ 2 + yu ^ 2 = Real.sin θv ^ 2 := by
      rw [hs2]
      linarith [hsum]
    refine ⟨θv / Real.sin θv * xu, θv / Real.sin θv * yu, ?_, ?_⟩
    · simp only [sphere_to_plane_ARC]
      rw [if_neg hrange, ← hzz, ← hxu, ← hyu, hclip, ← hθdef, if_neg hθne]
    · have hθback : Real.sqrt (θv / Real.sin θv * xu * (θv / Real.sin θv * xu) +
          θv / Real.sin θv * yu * (θv / Real.sin θv * yu)) = θv := by
        rw [show θv / Real.sin θv * xu * (θv / Real.sin θv * xu) +
            θv / Real.sin θv * yu * (θv / Real.sin θv * yu) = θv ^ 2 from by
          field_simp
          linear_combination θv ^ 2 * hxy2]
        exact Real.sqrt_sq hθpos.le
      simp only [plane_to_sphere_ARC]
      rw [hθback, if_neg (not_lt.mpr hθlt.le), if_neg hθne, hcθ]
      have hcancel : Real.cos el0 * (Real.sin θv / θv) * (θv / Real.sin θv * yu) =
          Real.cos el0 * yu := by
        field_simp
        ring
      have hsss : Real.cos el0 * yu + Real.sin el0 * z = Real.sin el := by
        rw [hyu, hzz]
        linear_combination Real.sin el * h0sq
      rw [hcancel, hsss]
      have habs : ¬ (|Real.sin el| > 1) := by
        rw [not_lt]
        exact abs_le.mpr ⟨Real.neg_one_le_sin el, Real.sin_le_one el⟩
      rw [if_neg habs, Real.arcsin_sin h1'.1.le h1'.2.le]
      have hnum : θv / Real.sin θv * xu * (Real.sin θv / θv) * Real.cos el0 =
          Real.cos el * Real.cos el0 * Real.sin d := by
        rw [hxu]
        field_simp
        ring
      have hden : z - Real.sin el * Real.sin el0 =
          Real.cos el * Real.cos el0 * Real.cos d := by
        rw [hzz]
        ring
      rw [hnum, hden, arctan2_rpolar (mul_pos hce hc0) hd]
      rw [show az0 + d = az from by rw [hdd]; ring]

/-- ARC projection reverse round trip: any plane point strictly inside the
radius-`pi` disc, with the reference strictly off the poles, is recovered
exactly. -/
theorem roundtrip_ARC_rev (az0 el0 x y : ℝ)
    (h0 : |el0| < π / 2) (hr : Real.sqrt (x * x + y * y) < π) :
    ∃ az el, plane_to_sphere_ARC az0 el0 x y = .ok (az, el) ∧
             sphere_to_plane_ARC az0 el0 az el = .ok (x, y) := by
  have h0sq := Real.sin_sq_add_cos_sq el0
  have h0' := abs_lt.mp h0
  have hc0 : 0 < Real.cos el0 := Real.cos_pos_of_mem_Ioo ⟨h0'.1, h0'.2⟩
  have hrange0 : ¬ (|el0| > π / 2 ∨ |el0| > π / 2) := by
    push_neg
    exact ⟨h0.le, h0.le⟩
  have hxy0 : 0 ≤ x * x + y * y :=
    add_nonneg (mul_self_nonneg x) (mul_self_nonneg y)
  set r := Real.sqrt (x * x + y * y) with hrdef
  have hr2 : r ^ 2 = x * x + y * y := by
    rw [hrdef]
    exact Real.sq_sqrt hxy0
  have hrnn : 0 ≤ r := by
    rw [hrdef]
    exact Real.sqrt_nonneg _
  rcases eq_or_lt_of_le hrnn with hr0 | hrpos
  · -- r = 0: the plane origin deprojects to the reference itself
    have hxyz : x * x + y * y = 0 := by
      rw [← hr2, ← hr0]
      norm_num
    have hx0 : x = 0 := by nlinarith [mul_self_nonneg x, mul_self_nonneg y]
    have hy0 : y = 0 := by nlinarith [mul_self_nonneg x, mul_self_nonneg y]
    rw [hx0, hy0]
    refine ⟨az0, el0, ?_, ?_⟩
    · simp only [plane_to_sphere_ARC]
      have hs0 : Real.sqrt ((0:ℝ) * 0 + 0 * 0) = 0 := by
        norm_num
      rw [hs0, if_neg (not_lt.mpr Real.pi_nonneg), if_pos rfl, Real.cos_zero]
      have hsin_el : Real.cos el0 * 1 * 0 + Real.sin el0 * 1 = Real.sin el0 := by
        ring
      rw [hsin_el]
      have habs : ¬ (|Real.sin el0| > 1) := by
        rw [not_lt]
        exact abs_le.mpr ⟨Real.neg_one_le_sin el0, Real.sin_le_one el0⟩
      rw [if_neg habs, Real.arcsin_sin h0'.1.le h0'.2.le]
      have hnum : (0:ℝ) * 1 * Real.cos el0 = 0 := by
        ring
      have hannn : (0:ℝ) ≤ 1 - Real.sin el0 * Real.sin el0 := by
        nlinarith [sq_nonneg (Real.cos el0)]
      rw [hnum, arctan2_zero_of_nonneg hannn, add_zero]
    · simp only [sphere_to_plane_ARC]
      rw [if_neg hrange0, sub_self, Real.cos_zero, Real.sin_zero]
      have hone : Real.sin el0 * Real.sin el0 + Real.cos el0 * Real.cos el0 * 1 = 1 := by
        linear_combination h0sq
      rw [hone, show min (max (1:ℝ) (-1)) 1 = 1 from by norm_num, Real.arccos_one,
        if_pos rfl]
      have e1 : 1 * (Real.cos el0 * 0) = 0 := by
        ring
      have e2 : 1 * (Real.sin el0 * Real.cos el0 - Real.cos el0 * Real.sin el0 * 1) = 0 := by
        ring
      rw [e1, e2]
  · -- 0 < r < pi
    have hrne : ¬ (r = 0) := ne_of_gt hrpos
    have hsr : 0 < Real.sin r := Real.sin_pos_of_pos_of_lt_pi hrpos hr
    obtain ⟨s, hsdef⟩ : ∃ t, t = Real.cos el0 * (Real.sin r / r) * y +
        Real.sin el0 * Real.cos r := ⟨_, rfl⟩
    obtain ⟨B, hBdef⟩ : ∃ t, t = Real.cos el0 * Real.cos r -
        Real.sin el0 * (Real.sin r / r * y) := ⟨_, rfl⟩
    obtain ⟨X, hXdef⟩ : ∃ t, t = Real.sin r / r * x := ⟨_, rfl⟩
    have key : (Real.sin r / r) ^ 2 * (x * x + y * y) = Real.sin r ^ 2 := by
      field_simp
      linear_combination (-1 : ℝ) * hr2
    have hsB : s ^ 2 + B ^ 2 = (Real.sin r / r * y) ^ 2 + Real.cos r ^ 2 := by
      rw [hsdef, hBdef]
      linear_combination ((Real.sin r / r * y) ^ 2 + Real.cos r ^ 2) * h0sq
    have hay : (Real.sin r / r * y) ^ 2 + (Real.sin r / r * x) ^ 2 = Real.sin r ^ 2 := by
      linear_combination key
    have hs1 : |s| ≤ 1 := by
      refine abs_le_one_iff_mul_self_le_one.mpr ?_
      nlinarith [hsB, hay, sq_nonneg B, sq_nonneg (Real.sin r / r * x),
        Real.sin_sq_add_cos_sq r]
    have hs1' := abs_le.mp hs1
    set el := Real.arcsin s with heldef
    have hsinel : Real.sin el = s := Real.sin_arcsin hs1'.1 hs1'.2
    have helr : |el| ≤ π / 2 :=
      abs_le.mpr ⟨Real.neg_pi_div_two_le_arcsin s, Real.arcsin_le_pi_div_two s⟩
    have hcosel : Real.cos el = Real.sqrt (B ^ 2 + X ^ 2) := by
      rw [heldef, Real.cos_arcsin]
      congr 1
      linear_combination -hsB - key - Real.sin_sq_add_cos_sq r -
        (X + Real.sin r / r * x) * hXdef
    have hkey := cos_sin_arctan2_of_sqrt hcosel
    set d := arctan2 X B with hddef
    have hcth : Real.sin el * Real.sin el0 + Real.cos el * Real.cos el0 * Real.cos d =
        Real.cos r := by
      have h5 : Real.cos el * Real.cos el0 * Real.cos d = Real.cos el0 * B := by
        rw [← hkey.1]
        ring
      rw [hsinel, h5, hsdef, hBdef]
      linear_combination Real.cos r * h0sq
    have hden : Real.cos r - s * Real.sin el0 = Real.cos el0 * B := by
      rw [hsdef, hBdef]
      linear_combination (-Real.cos r) * h0sq
    have hyA : Real.sin el * Real.cos el0 - Real.cos el * Real.sin el0 * Real.cos d =
        Real.sin r / r * y := by
      have h5 : Real.cos el * Real.sin el0 * Real.cos d = Real.sin el0 * B := by
        rw [← hkey.1]
        ring
      rw [hsinel, h5, hsdef, hBdef]
      linear_combination (Real.sin r / r * y) * h0sq
    refine ⟨az0 + d, el, ?_, ?_⟩
    · simp only [plane_to_sphere_ARC]
      rw [← hrdef, if_neg (not_lt.mpr hr.le), if_neg hrne, ← hsdef,
        if_neg (not_lt.mpr hs1), ← heldef]
      have hnum : x * (Real.sin r / r) * Real.cos el0 = Real.cos el0 * X := by
        rw [hXdef]
        ring
      rw [hnum, hden, arctan2_smul X B hc0, ← hddef]
    · have hrange : ¬ (|el0| > π / 2 ∨ |el| > π / 2) := by
        push_neg
        exact ⟨h0.le, helr⟩
      simp only [sphere_to_plane_ARC]
      rw [if_neg hrange, show az0 + d - az0 = d from by ring, hcth]
      rw [show min (max (Real.cos r) (-1)) 1 = Real.cos r from by
        rw [max_eq_left (Real.neg_one_le_cos r), min_eq_left (Real.cos_le_one r)]]
      rw [Real.arccos_cos hrpos.le hr.le, if_neg hrne, hyA, hkey.2]
      simp only [Except.ok.injEq, Prod.mk.injEq]
      constructor
      · rw [hXdef]
        field_simp
        ring
      · field_simp
        ring

/-- STG projection forward round trip: a target far enough from the antipode
of the reference, both strictly off the poles, is recovered exactly. -/
theorem roundtrip_STG_fwd (az0 el0 az el : ℝ)
    (h0 : |el0| < π / 2) (h1 : |el| < π / 2)
    (hd : az - az0 ∈ Set.Ioc (-π) π)
    (hdom : ¬ (1 + (Real.sin el * Real.sin el0 +
      Real.cos el * Real.cos el0 * Real.cos (az - az0)) < 1e-5)) :
    ∃ x y, sphere_to_plane_STG az0 el0 az el = .ok (x, y) ∧
           plane_to_sphere_STG az0 el0 x y = .ok (az, el) := by
  have h0sq := Real.sin_sq_add_cos_sq el0
  have h0' := abs_lt.mp h0
  have h1' := abs_lt.mp h1
  have hce : 0 < Real.cos el := Real.cos_pos_of_mem_Ioo ⟨h1'.1, h1'.2⟩
  have hc0 : 0 < Real.cos el0 := Real.cos_pos_of_mem_Ioo ⟨h0'.1, h0'.2⟩
  have hrange : ¬ (|el0| > π / 2 ∨ |el| > π / 2) := by
    push_neg
    exact ⟨h0.le, h1.le⟩
  have hsum := ortho_sq_sum el0 el (az - az0)
  set d := az - az0 with hdd
  set xu := Real.cos el * Real.sin d with hxu
  set yu := Real.sin el * Real.cos el0 - Real.cos el * Real.sin el0 * Real.cos d with hyu
  set z := Real.sin el * Real.sin el0 + Real.cos el * Real.cos el0 * Real.cos d with hzz
  have hden : 0 < 1 + z := by
    have h5 := not_lt.mp hdom
    have h6 : (0:ℝ) < 1e-5 := by norm_num
    linarith
  have hxy : xu ^ 2 + yu ^ 2 = 1 - z ^ 2 := by
    linarith [hsum]
  refine ⟨2 * xu / (1 + z), 2 * yu / (1 + z), ?_, ?_⟩
  · simp only [sphere_to_plane_STG]
    rw [if_neg hrange, if_neg hdom]
  · simp only [plane_to_sphere_STG]
    have hr2 : 2 * xu / (1 + z) * (2 * xu / (1 + z)) +
        2 * yu / (1 + z) * (2 * yu / (1 + z)) = 4 * (1 - z) / (1 + z) := by
      field_simp
      linear_combination 4 * (1 + z) * hxy
    rw [hr2]
    have h8 : (4:ℝ) + 4 * (1 - z) / (1 + z) = 8 / (1 + z) := by
      field_simp
      ring
    have h8pos : (0:ℝ) < 8 / (1 + z) := div_pos (by norm_num) hden
    have hcth : (4 - 4 * (1 - z) / (1 + z)) / (4 + 4 * (1 - z) / (1 + z)) = z := by
      rw [div_eq_iff (by rw [h8]; exact h8pos.ne')]
      field_simp
      ring
    rw [hcth]
    have hcancel : Real.cos el0 * ((1 + z) / 2) * (2 * yu / (1 + z)) =
        Real.cos el0 * yu := by
      field_simp
      ring
    have hsss : Real.cos el0 * yu + Real.sin el0 * z = Real.sin el := by
      rw [hyu, hzz]
      linear_combination Real.sin el * h0sq
    rw [hcancel, hsss]
    have habs : ¬ (|Real.sin el| > 1) := by
      rw [not_lt]
      exact abs_le.mpr ⟨Real.neg_one_le_sin el, Real.sin_le_one el⟩
    rw [if_neg habs, Real.arcsin_sin h1'.1.le h1'.2.le]
    have hnum : 2 * xu / (1 + z) * ((1 + z) / 2) * Real.cos el0 =
        Real.cos el * Real.cos el0 * Real.sin d := by
      rw [hxu]
      field_simp
      ring
    have hdenn : z - Real.sin el * Real.sin el0 =
        Real.cos el * Real.cos el0 * Real.cos d := by
      rw [hzz]
      ring
    rw [hnum, hdenn, arctan2_rpolar (mul_pos hce hc0) hd]
    rw [show az0 + d = az from by rw [hdd]; ring]

/-- STG projection reverse round trip: any plane point whose deprojection
stays out of the rejected near-antipodal band (`1 + cos theta >= 1e-5`), with
the reference strictly off the poles, is recovered exactly. -/
theorem roundtrip_STG_rev (az0 el0 x y : ℝ)
    (h0 : |el0| < π / 2)
    (hbig : 1e-5 ≤ 8 / (4 + (x * x + y * y))) :
    ∃ az el, plane_to_sphere_STG az0 el0 x y = .ok (az, el) ∧
             sphere_to_plane_STG az0 el0 az el = .ok (x, y) := by
  have h0sq := Real.sin_sq_add_cos_sq el0
  have h0' := abs_lt.mp h0
  have hc0 : 0 < Real.cos el0 := Real.cos_pos_of_mem_Ioo ⟨h0'.1, h0'.2⟩
  have h4 : (0:ℝ) < 4 + (x * x + y * y) := by
    linarith [mul_self_nonneg x, mul_self_nonneg y]
  obtain ⟨c, hcdef⟩ : ∃ t, t = (4 - (x * x + y * y)) / (4 + (x * x + y * y)) :=
    ⟨_, rfl⟩
  have hden1 : 1 + c = 8 / (4 + (x * x + y * y)) := by
    rw [hcdef]
    field_simp
    ring
  have hdenpos : 0 < 1 + c := by
    rw [hden1]
    positivity
  have hdompass : ¬ (1 + c < 1e-5) := by
    rw [hden1]
    exact not_lt.mpr hbig
  have hscale2 : ((1 + c) / 2) ^ 2 * (x * x + y * y) + c ^ 2 = 1 := by
    rw [hcdef]
    field_simp
    ring
  obtain ⟨sv, hsvdef⟩ : ∃ t, t = Real.cos el0 * ((1 + c) / 2) * y +
      Real.sin el0 * c := ⟨_, rfl⟩
  obtain ⟨B, hBdef⟩ : ∃ t, t = Real.cos el0 * c -
      Real.sin el0 * ((1 + c) / 2 * y) := ⟨_, rfl⟩
  obtain ⟨X, hXdef⟩ : ∃ t, t = (1 + c) / 2 * x := ⟨_, rfl⟩
  have hsB : sv ^ 2 + B ^ 2 = ((1 + c) / 2 * y) ^ 2 + c ^ 2 := by
    rw [hsvdef, hBdef]
    linear_combination (((1 + c) / 2 * y) ^ 2 + c ^ 2) * h0sq
  have hs1 : |sv| ≤ 1 := by
    refine abs_le_one_iff_mul_self_le_one.mpr ?_
    nlinarith [hsB, hscale2, sq_nonneg B, sq_nonneg ((1 + c) / 2 * x)]
  have hs1' := abs_le.mp hs1
  set el := Real.arcsin sv with heldef
  have hsinel : Real.sin el = sv := Real.sin_arcsin hs1'.1 hs1'.2
  have helr : |el| ≤ π / 2 :=
    abs_le.mpr ⟨Real.neg_pi_div_two_le_arcsin sv, Real.arcsin_le_pi_div_two sv⟩
  have hcosel : Real.cos el = Real.sqrt (B ^ 2 + X ^ 2) := by
    rw [heldef, Real.cos_arcsin]
    congr 1
    linear_combination -hsB - hscale2 - (X + (1 + c) / 2 * x) * hXdef
  have hkey := cos_sin_arctan2_of_sqrt hcosel
  set d := arctan2 X B with hddef
  have hcth : Real.sin el * Real.sin el0 + Real.cos el * Real.cos el0 * Real.cos d =
      c := by
    have h5 : Real.cos el * Real.cos el0 * Real.cos d = Real.cos el0 * B := by
      rw [← hkey.1]
      ring
    rw [hsinel, h5, hsvdef, hBdef]
    linear_combination c * h0sq
  have hdenrw : c - sv * Real.sin el0 = Real.cos el0 * B := by
    rw [hsvdef, hBdef]
    linear_combination (-c) * h0sq
  have hyA : Real.sin el * Real.cos el0 - Real.cos el * Real.sin el0 * Real.cos d =
      (1 + c) / 2 * y := by
    have h5 : Real.cos el * Real.sin el0 * Real.cos d = Real.sin el0 * B := by
      rw [← hkey.1]
      ring
    rw [hsinel, h5, hsvdef, hBdef]
    linear_combination ((1 + c) / 2 * y) * h0sq
  refine ⟨az0 + d, el, ?_, ?_⟩
  · simp only [plane_to_sphere_STG]
    rw [← hcdef, ← hsvdef, if_neg (not_lt.mpr hs1), ← heldef]
    have hnum : x * ((1 + c) / 2) * Real.cos el0 = Real.cos el0 * X := by
      rw [hXdef]
      ring
    rw [hnum, hdenrw, arctan2_smul X B hc0, ← hddef]
  · have hrange : ¬ (|el0| > π / 2 ∨ |el| > π / 2) := by
      push_neg
      exact ⟨h0.le, helr⟩
    simp only [sphere_to_plane_STG]
    rw [if_neg hrange, show az0 + d - az0 = d from by ring, hcth,
      if_neg hdompass, hkey.2, hyA]
    simp only [Except.ok.injEq, Prod.mk.injEq]
    constructor
    · rw [hXdef]
      field_simp
    · field_simp

/-! ### C1: projection round trips -/

/-- **C1 is false as stated**: the gnomonic (TAN) projection accepts any
target strictly inside the reference hemisphere, but `plane_to_sphere_TAN`
rejects plane points outside the unit disc, so the round trip raises instead
of closing for a target 1 radian from the reference (whose image has
`y = tan 1 > 1`). -/
theorem C1_counterexample_TAN_forward :
    sphere_to_plane .TAN 0 0 0 1 = .ok (0, Real.tan 1) ∧
    plane_to_sphere .TAN 0 0 0 (Real.tan 1) =
      .error "Length of (x, y) vector bigger than 1.0" := by
  have hpi3 := Real.pi_gt_three
  have hpi4 := Real.pi_lt_d2
  have htan : 1 < Real.tan 1 := by
    have h4 : Real.tan (π / 4) < Real.tan 1 :=
      Real.tan_lt_tan_of_lt_of_lt_pi_div_two (by linarith) (by linarith)
        (by linarith)
    rw [Real.tan_pi_div_four] at h4
    exact h4
  constructor
  · show sphere_to_plane_TAN 0 0 0 1 = .ok (0, Real.tan 1)
    unfold sphere_to_plane_TAN
    have hr : ¬ (|(0:ℝ)| > π / 2 ∨ |(1:ℝ)| > π / 2) := by
      push_neg
      constructor
      · rw [abs_of_nonneg (le_refl (0:ℝ))]
        positivity
      · rw [abs_of_nonneg (by norm_num : (0:ℝ) ≤ 1)]
        linarith
    rw [if_neg hr, sub_self, Real.sin_zero, Real.cos_zero]
    have hsimp : Real.sin 1 * 0 + Real.cos 1 * 1 * 1 = Real.cos 1 := by
      ring
    rw [hsimp]
    have hc1 : 0 < Real.cos 1 := Real.cos_one_pos
    rw [if_neg (not_le.mpr hc1)]
    have e1 : Real.cos 1 * 0 / Real.cos 1 = 0 := by
      rw [mul_zero, zero_div]
    have e2 : (Real.sin 1 * 1 - Real.cos 1 * 0 * 1) / Real.cos 1 = Real.tan 1 := by
      rw [Real.tan_eq_sin_div_cos]
      ring
    rw [e1, e2]
  · show plane_to_sphere_TAN 0 0 0 (Real.tan 1) = _
    unfold plane_to_sphere_TAN
    have hcond : (0:ℝ) * 0 + Real.tan 1 * Real.tan 1 > 1 := by
      nlinarith [htan]
    rw [if_pos hcond]

/-- **C1 (amended)**: within each family's usable domain the round trips are
exact over real arithmetic (so a fortiori within 1e-8 rad), with these
amendments forced by the code: the TAN forward trip additionally requires the
projected point to lie in the unit disc accepted by `plane_to_sphere_TAN`
(the counterexample above), and away from the degenerate vanishing gnomonic
denominators; poles are excluded, where the recovered longitude would be the
reference longitude rather than the input; ARC excludes the exact antipode on
the sphere side and the boundary circle of radius pi on the plane side; STG's
plane-side trip needs the deprojected point to clear the `1 + cos theta >=
1e-5` band rejected by `sphere_to_plane_STG`.  Longitudes are compared via
the representative of `lon - ref_lon` in `(-pi, pi]`. -/
theorem C1_roundtrip_amended :
    (∀ az0 el0 az el, |el0| ≤ π / 2 → |el| < π / 2 →
      az - az0 ∈ Set.Ioc (-π) π →
      0 ≤ Real.sin el * Real.sin el0 +
        Real.cos el * Real.cos el0 * Real.cos (az - az0) →
      ∃ x y, sphere_to_plane .SIN az0 el0 az el = .ok (x, y) ∧
             plane_to_sphere .SIN az0 el0 x y = .ok (az, el)) ∧
    (∀ az0 el0 az el, |el0| ≤ π / 2 → |el| < π / 2 →
      az - az0 ∈ Set.Ioc (-π) π → Real.cos (az - az0) ≠ 0 →
      0 < Real.sin el * Real.sin el0 +
        Real.cos el * Real.cos el0 * Real.cos (az - az0) →
      (Real.cos el * Real.sin (az - az0)) ^ 2 +
        (Real.sin el * Real.cos el0 -
          Real.cos el * Real.sin el0 * Real.cos (az - az0)) ^ 2 ≤
        (Real.sin el * Real.sin el0 +
          Real.cos el * Real.cos el0 * Real.cos (az - az0)) ^ 2 →
      ∃ x y, sphere_to_plane .TAN az0 el0 az el = .ok (x, y) ∧
             plane_to_sphere .TAN az0 el0 x y = .ok (az, el)) ∧
    (∀ az0 el0 az el, |el0| < π / 2 → |el| < π / 2 →
      az - az0 ∈ Set.Ioc (-π) π →
      -1 < Real.sin el * Real.sin el0 +
        Real.cos el * Real.cos el0 * Real.cos (az - az0) →
      ∃ x y, sphere_to_plane .ARC az0 el0 az el = .ok (x, y) ∧
             plane_to_sphere .ARC az0 el0 x y = .ok (az, el)) ∧
    (∀ az0 el0 az el, |el0| < π / 2 → |el| < π / 2 →
      az - az0 ∈ Set.Ioc (-π) π →
      ¬ (1 + (Real.sin el * Real.sin el0 +
        Real.cos el * Real.cos el0 * Real.cos (az - az0)) < 1e-5) →
      ∃ x y, sphere_to_plane .STG az0 el0 az el = .ok (x, y) ∧
             plane_to_sphere .STG az0 el0 x y = .ok (az, el)) ∧
    (∀ az0 el0 x y, |el0| ≤ π / 2 → x * x + y * y ≤ 1 →
      ∃ az el, plane_to_sphere .SIN az0 el0 x y = .ok (az, el) ∧
               sphere_to_plane .SIN az0 el0 az el = .ok (x, y)) ∧
    (∀ az0 el0 x y, |el0| ≤ π / 2 → x * x + y * y ≤ 1 →
      Real.cos el0 - y * Real.sin el0 ≠ 0 →
      ∃ az el, plane_to_sphere .TAN az0 el0 x y = .ok (az, el) ∧
               sphere_to_plane .TAN az0 el0 az el = .ok (x, y)) ∧
    (∀ az0 el0 x y, |el0| < π / 2 → Real.sqrt (x * x + y * y) < π →
      ∃ az el, plane_to_sphere .ARC az0 el0 x y = .ok (az, el) ∧
               sphere_to_plane .ARC az0 el0 az el = .ok (x, y)) ∧
    (∀ az0 el0 x y, |el0| < π / 2 → 1e-5 ≤ 8 / (4 + (x * x + y * y)) →
      ∃ az el, plane_to_sphere .STG az0 el0 x y = .ok (az, el) ∧
               sphere_to_plane .STG az0 el0 az el = .ok (x, y)) := by
  exact ⟨fun az0 el0 az el h0 h1 hd hdom =>
      roundtrip_SIN_fwd az0 el0 az el h0 h1 hd hdom,
    fun az0 el0 az el h0 h1 hd hcd hdom hdisc =>
      roundtrip_TAN_fwd az0 el0 az el h0 h1 hd hcd hdom hdisc,
    fun az0 el0 az el h0 h1 hd hdom =>
      roundtrip_ARC_fwd az0 el0 az el h0 h1 hd hdom,
    fun az0 el0 az el h0 h1 hd hdom =>
      roundtrip_STG_fwd az0 el0 az el h0 h1 hd hdom,
    fun az0 el0 x y h0 hr =>
      roundtrip_SIN_rev az0 el0 x y h0 hr,
    fun az0 el0 x y h0 hr hden =>
      roundtrip_TAN_rev az0 el0 x y h0 hr hden,
    fun az0 el0 x y h0 hr =>
      roundtrip_ARC_rev az0 el0 x y h0 hr,
    fun az0 el0 x y h0 hr =>
      roundtrip_STG_rev az0 el0 x y h0 hr⟩

/-- Witness for `C1_roundtrip_amended` at a concrete input: the SIN round
trip closes exactly for a target 1 radian east of the reference `(0, 0)`. -/
theorem C1_roundtrip_amended_witness :
    ∃ x y, sphere_to_plane .SIN 0 0 1 0 = .ok (x, y) ∧
           plane_to_sphere .SIN 0 0 x y = .ok (1, 0) :=
  C1_roundtrip_amended.1 0 0 1 0
    (by rw [abs_of_nonneg (le_refl (0:ℝ))]; positivity)
    (by rw [abs_of_nonneg (le_refl (0:ℝ))]; positivity)
    (⟨by norm_num; linarith [Real.pi_gt_three],
      by norm_num; linarith [Real.pi_gt_three]⟩)
    (by
      rw [Real.sin_zero, Real.cos_zero, sub_zero]
      nlinarith [Real.cos_one_pos])

/-! ### Pointing and refraction corrections (`correction.py`) -/

/-- `deg2rad` from `ephem_extra.py`. -/
def deg2rad (x : ℝ) : ℝ := x * (π / 180)

/-- `rad2deg` from `ephem_extra.py`. -/
def rad2deg (x : ℝ) : ℝ := x * (180 / π)

/-- `numpy.sign`. -/
def sign (x : ℝ) : ℝ := if 0 < x then 1 else if x < 0 then -1 else 0

/-- `refraction_offset_vlbi` from `correction.py`: the VLBI Field System
refraction model.  The elevation is clipped to `[1, 90]` degrees before the
elevation-dependent terms are evaluated (numpy `clip(a, lo, hi)` is
`min (max a lo) hi`). -/
def refraction_offset_vlbi (el temperature_C pressure_hPa humidity_percent : ℝ) : ℝ :=
  let rhumi := (100 - humidity_percent) * 0.9
  let dewpt := temperature_C - rhumi * (0.136667 + rhumi * 1.33333e-3 +
    temperature_C * 1.5e-3)
  let pp := 0.458675e1 + 0.322009e0 * dewpt + 0.103452e-1 * dewpt ^ 2 +
    0.274777e-3 * dewpt ^ 3 + 0.157115e-5 * dewpt ^ 4
  let temperature_K := temperature_C + 273
  let sn := 77.6 * (pressure_hPa + (4810.0 * 1.33289 * pp) / temperature_K) /
    temperature_K
  let el_deg := min (max (rad2deg el) 1) 90
  let aphi := 40 / (el_deg + 2.7) ^ (4 : ℝ)
  let dele := -42.5 / (el_deg + 0.4) ^ (2.64 : ℝ)
  let zenith_angle := deg2rad (90 - el_deg)
  let bphi := 0.57295787e-4 * (Real.tan zenith_angle + dele)
  deg2rad (bphi * sn - aphi)

/-- Angular tolerance (0.01 arcsec) shared by `RefractionCorrection.reverse`
and `PointingModel.reverse`. -/
def tolerance : ℝ := deg2rad (0.01 / 3600)

namespace RefractionCorrection

/-- `RefractionCorrection.apply` with the only available model
(`VLBI Field System`). -/
def apply (el temperature_C pressure_hPa humidity_percent : ℝ) : ℝ :=
  el + refraction_offset_vlbi el temperature_C pressure_hPa humidity_percent

/-- Initial bisection bracket of `RefractionCorrection.reverse`. -/
def bisectInit (refracted_el tC p h : ℝ) : ℝ × ℝ :=
  (refracted_el - 4 * |refraction_offset_vlbi refracted_el tC p h|,
   refracted_el + deg2rad (1 / 3600))

open Classical in
/-- One iteration of the bisection loop of `RefractionCorrection.reverse`
(scalar case): take the midpoint, stop (state frozen) once the refracted
midpoint is within tolerance of the target, otherwise move one bound. -/
def bisectStep (refracted_el tC p h : ℝ) (st : ℝ × ℝ) : ℝ × ℝ :=
  let el := 0.5 * (st.1 + st.2)
  if |apply el tC p h - refracted_el| < tolerance then st
  else if apply el tC p h < refracted_el then (el, st.2)
  else (st.1, el)

/-- The bisection state after `n` loop iterations. -/
def bisectIter (refracted_el tC p h : ℝ) : ℕ → ℝ × ℝ
  | 0 => bisectInit refracted_el tC p h
  | n + 1 => bisectStep refracted_el tC p h (bisectIter refracted_el tC p h n)

open Classical in
/-- Unconditional bisection (no convergence test), for stating what the loop
computes when the convergence test never fires. -/
def bisectPlain (refracted_el tC p h : ℝ) : ℕ → ℝ × ℝ
  | 0 => bisectInit refracted_el tC p h
  | n + 1 =>
    let st := bisectPlain refracted_el tC p h n
    let el := 0.5 * (st.1 + st.2)
    if apply el tC p h < refracted_el then (el, st.2) else (st.1, el)

open Classical in
/-- `RefractionCorrection.reverse` (scalar case): 40 capped bisection
iterations; the returned elevation is the midpoint the loop stopped at, and
when no iteration converged a warning reporting the achieved residual is
emitted (`Option ℝ` holds the reported residual). -/
def reverse (refracted_el tC p h : ℝ) : ℝ × Option ℝ :=
  let st := bisectIter refracted_el tC p h 39
  let el := 0.5 * (st.1 + st.2)
  if ∀ i, i < 40 → tolerance ≤
      |apply (0.5 * ((bisectIter refracted_el tC p h i).1 +
        (bisectIter refracted_el tC p h i).2)) tC p h - refracted_el|
  then (el, some |apply el tC p h - refracted_el|)
  else (el, none)

end RefractionCorrection

namespace PointingModel

/-- `PointingModel.offset`: the 22-term VLBI pointing model for an alt-az
mount (`phi = 90 deg`), returning `(delta_az, delta_el)`.  Near zenith
`sec el` is regularised by clamping `|cos el|` to at least 6 arcmin while
preserving its sign. -/
def offset (params : Fin 22 → ℝ) (az el : ℝ) : ℝ × ℝ :=
  let P1 := params 0
  let P3 := params 2
  let P4 := params 3
  let P5 := params 4
  let P6 := params 5
  let P7 := params 6
  let P8 := params 7
  let P9 := params 8
  let P11 := params 10
  let P12 := params 11
  let P13 := params 12
  let P14 := params 13
  let P15 := params 14
  let P16 := params 15
  let P17 := params 16
  let P18 := params 17
  let P19 := params 18
  let P20 := params 19
  let P21 := params 20
  let P22 := params 21
  let sin_az := Real.sin az
  let cos_az := Real.cos az
  let sin_2az := Real.sin (2 * az)
  let cos_2az := Real.cos (2 * az)
  let sin_el := Real.sin el
  let cos_el := Real.cos el
  let sin_8el := Real.sin (8 * el)
  let cos_8el := Real.cos (8 * el)
  let sec_el := sign cos_el / min (max |cos_el| (deg2rad (6 / 60))) 1
  let tan_el := sin_el * sec_el
  (P1 + P3 * tan_el - P4 * sec_el + P5 * sin_az * tan_el - P6 * cos_az * tan_el +
     P12 * az + P13 * cos_az + P14 * sin_az + P17 * cos_2az + P18 * sin_2az,
   P5 * cos_az + P6 * sin_az + P7 + P8 * cos_el +
     P9 * el + P11 * sin_el + P15 * cos_2az + P16 * sin_2az + P19 * cos_8el +
     P20 * sin_8el + P21 * cos_az + P22 * sin_az)

/-- `PointingModel.apply`. -/
def apply (params : Fin 22 → ℝ) (az el : ℝ) : ℝ × ℝ :=
  (az + (offset params az el).1, el + (offset params az el).2)

/-- `PointingModel._jacobian`, returning
`(d_corraz_d_az, d_corraz_d_el, d_correl_d_az, d_correl_d_el)`. -/
def jacobian (params : Fin 22 → ℝ) (az el : ℝ) : ℝ × ℝ × ℝ × ℝ :=
  let P3 := params 2
  let P4 := params 3
  let P5 := params 4
  let P6 := params 5
  let P8 := params 7
  let P9 := params 8
  let P11 := params 10
  let P12 := params 11
  let P13 := params 12
  let P14 := params 13
  let P15 := params 14
  let P16 := params 15
  let P17 := params 16
  let P18 := params 17
  let P19 := params 18
  let P20 := params 19
  let P21 := params 20
  let P22 := params 21
  let sin_az := Real.sin az
  let cos_az := Real.cos az
  let sin_2az := Real.sin (2 * az)
  let cos_2az := Real.cos (2 * az)
  let sin_el := Real.sin el
  let cos_el := Real.cos el
  let sin_8el := Real.sin (8 * el)
  let cos_8el := Real.cos (8 * el)
  let sec_el := sign cos_el / min (max |cos_el| (deg2rad (6 / 60))) 1
  let tan_el := sin_el * sec_el
  (1 + P5 * cos_az * tan_el + P6 * sin_az * tan_el +
     P12 - P13 * sin_az + P14 * cos_az - P17 * 2 * sin_2az + P18 * 2 * cos_2az,
   sec_el * (P3 * sec_el - P4 * tan_el + P5 * sin_az * sec_el - P6 * cos_az * sec_el),
   -P5 * sin_az + P6 * cos_az - P15 * 2 * sin_2az + P16 * 2 * cos_2az -
     P21 * sin_az + P22 * cos_az,
   1 - P8 * sin_el + P9 + P11 * cos_el - P19 * 8 * sin_8el + P20 * 8 * cos_8el)

/-- The sky error `sqrt ((cos el * b1)^2 + b2^2)` measured by
`PointingModel.reverse` at a Newton iterate. -/
def skyError (params : Fin 22 → ℝ) (pointed_az pointed_el : ℝ) (st : ℝ × ℝ) : ℝ :=
  Real.sqrt ((Real.cos st.2 * (pointed_az - (apply params st.1 st.2).1)) ^ 2 +
    (pointed_el - (apply params st.1 st.2).2) ^ 2)

/-- One Newton step of `PointingModel.reverse`: solve `J dx = -F` by
Cramer's rule. -/
def newtonStep (params : Fin 22 → ℝ) (pointed_az pointed_el : ℝ)
    (st : ℝ × ℝ) : ℝ × ℝ :=
  let a := jacobian params st.1 st.2
  let b1 := pointed_az - (apply params st.1 st.2).1
  let b2 := pointed_el - (apply params st.1 st.2).2
  let det_J := a.1 * a.2.2.2 - a.2.2.1 * a.2.1
  (st.1 + (a.2.2.2 * b1 - a.2.1 * b2) / det_J,
   st.2 + (a.1 * b2 - a.2.2.1 * b1) / det_J)

open Classical in
/-- The Newton state after `n` loop iterations of `PointingModel.reverse`
(state frozen once the sky error drops below tolerance, mirroring `break`). -/
def reverseIter (params : Fin 22 → ℝ) (pointed_az pointed_el : ℝ) : ℕ → ℝ × ℝ
  | 0 => (pointed_az - params 0, pointed_el - params 6)
  | n + 1 =>
    let st := reverseIter params pointed_az pointed_el n
    if skyError params pointed_az pointed_el st < tolerance then st
    else newtonStep params pointed_az pointed_el st

/-- Unconditional Newton iteration (no convergence test). -/
def newtonIterate (params : Fin 22 → ℝ) (pointed_az pointed_el : ℝ) : ℕ → ℝ × ℝ
  | 0 => (pointed_az - params 0, pointed_el - params 6)
  | n + 1 => newtonStep params pointed_az pointed_el
      (newtonIterate params pointed_az pointed_el n)

open Classical in
/-- `PointingModel.reverse` (scalar case): 30 capped Newton iterations; the
returned `(az, el)` is the state the loop stopped at, and when no iteration
converged a warning reporting the last measured sky error is emitted. -/
def reverse (params : Fin 22 → ℝ) (pointed_az pointed_el : ℝ) :
    (ℝ × ℝ) × Option ℝ :=
  let st := reverseIter params pointed_az pointed_el 30
  if ∀ k, k < 30 → tolerance ≤
      skyError params pointed_az pointed_el (reverseIter params pointed_az pointed_el k)
  then (st, some (skyError params pointed_az pointed_el
    (reverseIter params pointed_az pointed_el 29)))
  else (st, none)

end PointingModel

/-! ### C6: iteration caps do not raise -/

/-- When the Newton loop never reaches tolerance, the early-exit iteration
coincides with the unconditional one. -/
theorem reverseIter_eq_newtonIterate (params : Fin 22 → ℝ) (paz pel : ℝ)
    (h : ∀ k, k < 30 → tolerance ≤
      PointingModel.skyError params paz pel
        (PointingModel.newtonIterate params paz pel k)) :
    ∀ k, k ≤ 30 → PointingModel.reverseIter params paz pel k =
      PointingModel.newtonIterate params paz pel k := by
  intro k
  induction k with
  | zero =>
    intro _
    rfl
  | succ n ih =>
    intro hn
    have hn' : n ≤ 30 := by omega
    have hlt : n < 30 := by omega
    rw [PointingModel.reverseIter, ih hn']
    rw [if_neg (not_lt.mpr (h n hlt)), PointingModel.newtonIterate]

/-- When the bisection loop never reaches tolerance, the early-exit
iteration coincides with the unconditional one. -/
theorem bisectIter_eq_bisectPlain (re tC p h : ℝ)
    (hcap : ∀ i, i < 40 → tolerance ≤
      |RefractionCorrection.apply
        (0.5 * ((RefractionCorrection.bisectPlain re tC p h i).1 +
          (RefractionCorrection.bisectPlain re tC p h i).2)) tC p h - re|) :
    ∀ i, i ≤ 40 → RefractionCorrection.bisectIter re tC p h i =
      RefractionCorrection.bisectPlain re tC p h i := by
  intro i
  induction i with
  | zero =>
    intro _
    rfl
  | succ n ih =>
    intro hn
    have hn' : n ≤ 40 := by omega
    have hlt : n < 40 := by omega
    rw [RefractionCorrection.bisectIter, ih hn']
    rw [RefractionCorrection.bisectStep, RefractionCorrection.bisectPlain,
      if_neg (not_lt.mpr (hcap n hlt))]

/-- **C6**: when an iterative inverse hits its iteration cap (30 Newton
iterations for `PointingModel.reverse`, 40 bisection iterations for
`RefractionCorrection.reverse`) without reaching its angular tolerance, the
call still returns (no exception is modelled or raised): it yields the last
iterate of the plain iteration together with a warning carrying the achieved
residual. -/
theorem C6_iteration_cap_returns_best_estimate :
    (∀ (params : Fin 22 → ℝ) (paz pel : ℝ),
      (∀ k, k < 30 → tolerance ≤
        PointingModel.skyError params paz pel
          (PointingModel.newtonIterate params paz pel k)) →
      PointingModel.reverse params paz pel =
        (PointingModel.newtonIterate params paz pel 30,
         some (PointingModel.skyError params paz pel
           (PointingModel.newtonIterate params paz pel 29)))) ∧
    (∀ re tC p h : ℝ,
      (∀ i, i < 40 → tolerance ≤
        |RefractionCorrection.apply
          (0.5 * ((RefractionCorrection.bisectPlain re tC p h i).1 +
            (RefractionCorrection.bisectPlain re tC p h i).2)) tC p h - re|) →
      RefractionCorrection.reverse re tC p h =
        (0.5 * ((RefractionCorrection.bisectPlain re tC p h 39).1 +
          (RefractionCorrection.bisectPlain re tC p h 39).2),
         some |RefractionCorrection.apply
           (0.5 * ((RefractionCorrection.bisectPlain re tC p h 39).1 +
             (RefractionCorrection.bisectPlain re tC p h 39).2)) tC p h - re|)) := by
  constructor
  · intro params paz pel h
    have heq := reverseIter_eq_newtonIterate params paz pel h
    unfold PointingModel.reverse
    rw [if_pos (fun k hk => by rw [heq k (by omega)]; exact h k hk)]
    rw [heq 30 (by omega), heq 29 (by omega)]
  · intro re tC p h hcap
    have heq := bisectIter_eq_bisectPlain re tC p h hcap
    unfold RefractionCorrection.reverse
    rw [if_pos (fun i hi => by rw [heq i (by omega)]; exact hcap i hi)]
    rw [heq 39 (by omega)]

/-- Torture parameter vector for the witness: only P9 (the elevation scale
factor, stored at index 8) is set, to `-1`, which makes the corrected
elevation identically zero and the Newton system singular. -/
def pmW : Fin 22 → ℝ := fun i => if i.1 = 8 then -1 else 0

theorem pmW_offset : PointingModel.offset pmW 0 1 = (0, -1) := by
  simp only [PointingModel.offset, show pmW 0 = (0:ℝ) from rfl, show pmW 1 = (0:ℝ) from rfl, show pmW 2 = (0:ℝ) from rfl, show pmW 3 = (0:ℝ) from rfl, show pmW 4 = (0:ℝ) from rfl, show pmW 5 = (0:ℝ) from rfl, show pmW 6 = (0:ℝ) from rfl, show pmW 7 = (0:ℝ) from rfl, show pmW 8 = (-1:ℝ) from rfl, show pmW 9 = (0:ℝ) from rfl, show pmW 10 = (0:ℝ) from rfl, show pmW 11 = (0:ℝ) from rfl, show pmW 12 = (0:ℝ) from rfl, show pmW 13 = (0:ℝ) from rfl, show pmW 14 = (0:ℝ) from rfl, show pmW 15 = (0:ℝ) from rfl, show pmW 16 = (0:ℝ) from rfl, show pmW 17 = (0:ℝ) from rfl, show pmW 18 = (0:ℝ) from rfl, show pmW 19 = (0:ℝ) from rfl, show pmW 20 = (0:ℝ) from rfl, show pmW 21 = (0:ℝ) from rfl]
  norm_num

theorem pmW_apply : PointingModel.apply pmW 0 1 = (0, 0) := by
  unfold PointingModel.apply
  rw [pmW_offset]
  norm_num

theorem pmW_skyError : PointingModel.skyError pmW 0 1 (0, 1) = 1 := by
  unfold PointingModel.skyError
  rw [pmW_apply]
  norm_num

theorem pmW_jacobian : PointingModel.jacobian pmW 0 1 = (1, 0, 0, 0) := by
  simp only [PointingModel.jacobian, show pmW 0 = (0:ℝ) from rfl, show pmW 1 = (0:ℝ) from rfl, show pmW 2 = (0:ℝ) from rfl, show pmW 3 = (0:ℝ) from rfl, show pmW 4 = (0:ℝ) from rfl, show pmW 5 = (0:ℝ) from rfl, show pmW 6 = (0:ℝ) from rfl, show pmW 7 = (0:ℝ) from rfl, show pmW 8 = (-1:ℝ) from rfl, show pmW 9 = (0:ℝ) from rfl, show pmW 10 = (0:ℝ) from rfl, show pmW 11 = (0:ℝ) from rfl, show pmW 12 = (0:ℝ) from rfl, show pmW 13 = (0:ℝ) from rfl, show pmW 14 = (0:ℝ) from rfl, show pmW 15 = (0:ℝ) from rfl, show pmW 16 = (0:ℝ) from rfl, show pmW 17 = (0:ℝ) from rfl, show pmW 18 = (0:ℝ) from rfl, show pmW 19 = (0:ℝ) from rfl, show pmW 20 = (0:ℝ) from rfl, show pmW 21 = (0:ℝ) from rfl]
  norm_num

theorem pmW_newtonStep : PointingModel.newtonStep pmW 0 1 (0, 1) = (0, 1) := by
  unfold PointingModel.newtonStep
  rw [pmW_jacobian, pmW_apply]
  norm_num

theorem pmW_newtonIterate (k : ℕ) :
    PointingModel.newtonIterate pmW 0 1 k = (0, 1) := by
  induction k with
  | zero =>
    show (0 - pmW 0, 1 - pmW 6) = ((0:ℝ), (1:ℝ))
    rw [show pmW 0 = (0:ℝ) from rfl, show pmW 6 = (0:ℝ) from rfl]
    norm_num
  | succ n ih =>
    rw [PointingModel.newtonIterate, ih, pmW_newtonStep]

theorem tolerance_le_one : tolerance ≤ 1 := by
  unfold tolerance deg2rad
  nlinarith [Real.pi_lt_d2, Real.pi_pos]

/-- Witness for `C6_iteration_cap_returns_best_estimate` at a concrete
input: with `pmW` the Newton iteration is stuck at sky error 1, the cap is
reached, and `reverse` returns the estimate plus the residual warning. -/
theorem C6_iteration_cap_witness :
    PointingModel.reverse pmW 0 1 =
      (PointingModel.newtonIterate pmW 0 1 30,
       some (PointingModel.skyError pmW 0 1
         (PointingModel.newtonIterate pmW 0 1 29))) :=
  C6_iteration_cap_returns_best_estimate.1 pmW 0 1 (fun k _ => by
    rw [pmW_newtonIterate k, pmW_skyError]
    exact tolerance_le_one)

/-! ### C8: refraction elevation clamp -/

/-- **C8**: `refraction_offset_vlbi` clips its elevation to `[1, 90]`
degrees before evaluation: below 1 degree the offset equals the offset at
exactly 1 degree, above 90 degrees it equals the offset at 90 degrees, and
for every input the clipped elevation stays in `[1, 90]` degrees, so the
zenith angle fed to `tan` lies in `[0, pi/2)` and the `cot(el)`-like term
never blows up at the horizon. -/
theorem C8_refraction_clamp :
    (∀ el tC p h : ℝ, rad2deg el ≤ 1 →
      refraction_offset_vlbi el tC p h = refraction_offset_vlbi (deg2rad 1) tC p h) ∧
    (∀ el tC p h : ℝ, 90 ≤ rad2deg el →
      refraction_offset_vlbi el tC p h = refraction_offset_vlbi (deg2rad 90) tC p h) ∧
    (∀ el : ℝ, 1 ≤ min (max (rad2deg el) 1) 90 ∧
      min (max (rad2deg el) 1) 90 ≤ 90 ∧
      0 ≤ deg2rad (90 - min (max (rad2deg el) 1) 90) ∧
      deg2rad (90 - min (max (rad2deg el) 1) 90) < π / 2) := by
  have hrd1 : rad2deg (deg2rad 1) = 1 := by
    unfold rad2deg deg2rad
    field_simp
  have hrd90 : rad2deg (deg2rad 90) = 90 := by
    unfold rad2deg deg2rad
    field_simp
  refine ⟨?_, ?_, ?_⟩
  · intro el tC p h hle
    have hclip : min (max (rad2deg el) 1) 90 = 1 := by
      rw [max_eq_right hle, min_eq_left (by norm_num : (1:ℝ) ≤ 90)]
    have hclip1 : min (max (rad2deg (deg2rad 1)) 1) 90 = 1 := by
      rw [hrd1, max_self, min_eq_left (by norm_num : (1:ℝ) ≤ 90)]
    simp only [refraction_offset_vlbi]
    rw [hclip, hclip1]
  · intro el tC p h hge
    have hclip : min (max (rad2deg el) 1) 90 = 90 := by
      rw [max_eq_left (by linarith : (1:ℝ) ≤ rad2deg el), min_eq_right hge]
    have hclip90 : min (max (rad2deg (deg2rad 90)) 1) 90 = 90 := by
      rw [hrd90, max_eq_left (by norm_num : (1:ℝ) ≤ 90),
        min_eq_right (le_refl (90:ℝ))]
    simp only [refraction_offset_vlbi]
    rw [hclip, hclip90]
  · intro el
    have h1 : (1:ℝ) ≤ min (max (rad2deg el) 1) 90 :=
      le_min (le_max_right _ 1) (by norm_num)
    have h90 : min (max (rad2deg el) 1) 90 ≤ 90 := min_le_right _ _
    refine ⟨h1, h90, ?_, ?_⟩
    · unfold deg2rad
      apply mul_nonneg (by linarith)
      positivity
    · unfold deg2rad
      nlinarith [Real.pi_pos]

/-- Witness for `C8_refraction_clamp` at a concrete input: at elevation 0
the offset is the 1-degree offset. -/
theorem C8_refraction_clamp_witness :
    refraction_offset_vlbi 0 10 1000 50 =
      refraction_offset_vlbi (deg2rad 1) 10 1000 50 :=
  C8_refraction_clamp.1 0 10 1000 50 (by
    unfold rad2deg
    norm_num)

/-! ### `PointingModel.fit` and `PointingModel.__init__` -/

/-- Python exception kinds raised by the modelled `correction.py` paths. -/
inductive PyError
  | valueError : String → PyError
  | assertionError : String → PyError
deriving DecidableEq

namespace PointingModel

/-- `PointingModel.fit`, modelled up to the linear algebra: the input shape
check (an `assert` statement, hence an AssertionError on mismatch), the
default sigmas (taking the shape of `az` and `el`), the default enabled set
`[1, 3, 4, 5, 6, 7]`, the forced removal of P2 and P10 (each with a warning
flag), and the zeroing of every parameter outside the final enabled set.
1-D inputs are modelled by their lengths; the SVD least-squares solution
values are abstracted as `svdSolution` because no claim depends on them. -/
def fit (az el delta_az delta_el : List ℝ)
    (sigma_daz sigma_del : Option (List ℝ))
    (enabled_params : Option (List ℕ)) (svdSolution : ℕ → ℝ) :
    Except PyError ((Fin 22 → ℝ) × Bool × Bool) :=
  let nsdaz := (sigma_daz.map List.length).getD az.length
  let nsdel := (sigma_del.map List.length).getD el.length
  if ¬ (az.length = el.length ∧ el.length = delta_az.length ∧
        delta_az.length = delta_el.length ∧ delta_el.length = nsdaz ∧
        nsdaz = nsdel) then
    .error (.assertionError "Input parameters should all have the same shape")
  else
    let enabled0 := enabled_params.getD [1, 3, 4, 5, 6, 7]
    let enabled := (enabled0.toFinset.erase 2).erase 10
    .ok (fun i => if i.1 + 1 ∈ enabled then svdSolution (i.1 + 1) else 0,
         decide (2 ∈ enabled0), decide (10 ∈ enabled0))

open Classical in
/-- `PointingModel.__init__` on a numeric parameter sequence: with
`strict = true` a wrong length raises a ValueError; with `strict = false` a
short list is padded with zeros and a long list is truncated to the first 22
entries, with a warning (the `Bool`) iff a discarded entry is non-zero.
(The error message is abbreviated from the source format string.) -/
def init (params : List ℝ) (strict : Bool) :
    Except PyError ((Fin 22 → ℝ) × Bool) :=
  if params.length ≠ 22 then
    if strict then
      .error (.valueError "Pointing model expects exactly 22 parameters")
    else if params.length < 22 then
      .ok (fun i => params.getD i.1 0, false)
    else
      .ok (fun i => params.getD i.1 0,
        if ∃ v ∈ params.drop 22, v ≠ 0 then true else false)
  else
    .ok (fun i => params.getD i.1 0, false)

end PointingModel

/-! ### C7: fit disables P2/P10 and zeroes disabled parameters -/

/-- **C7**: on well-shaped input, `PointingModel.fit` warns and drops P2 and
P10 whenever they are requested, and every parameter outside the final
enabled set — in particular P2 and P10 themselves — is exactly zero in the
returned vector, whatever values the least-squares solve produces. -/
theorem C7_fit_param_handling (az el daz del : List ℝ)
    (sdaz sdel : Option (List ℝ)) (en : Option (List ℕ)) (sol : ℕ → ℝ)
    (hshape : az.length = el.length ∧ el.length = daz.length ∧
      daz.length = del.length ∧
      del.length = (sdaz.map List.length).getD az.length ∧
      (sdaz.map List.length).getD az.length =
        (sdel.map List.length).getD el.length) :
    ∃ v w2 w10, PointingModel.fit az el daz del sdaz sdel en sol =
        .ok (v, w2, w10) ∧
      (w2 = true ↔ 2 ∈ en.getD [1, 3, 4, 5, 6, 7]) ∧
      (w10 = true ↔ 10 ∈ en.getD [1, 3, 4, 5, 6, 7]) ∧
      v 1 = 0 ∧ v 9 = 0 ∧
      (∀ i : Fin 22,
        i.1 + 1 ∉ ((en.getD [1, 3, 4, 5, 6, 7]).toFinset.erase 2).erase 10 →
        v i = 0) := by
  refine ⟨fun i => if i.1 + 1 ∈
      ((en.getD [1, 3, 4, 5, 6, 7]).toFinset.erase 2).erase 10
      then sol (i.1 + 1) else 0,
    decide (2 ∈ en.getD [1, 3, 4, 5, 6, 7]),
    decide (10 ∈ en.getD [1, 3, 4, 5, 6, 7]), ?_, ?_, ?_, ?_, ?_, ?_⟩
  · simp only [PointingModel.fit]
    rw [if_neg (not_not_intro hshape)]
  · simp
  · simp
  · have h2 : ((1 : Fin 22) : ℕ) + 1 ∉
        ((en.getD [1, 3, 4, 5, 6, 7]).toFinset.erase 2).erase 10 := by
      rw [show ((1 : Fin 22) : ℕ) + 1 = 2 from rfl]
      simp [Finset.mem_erase]
    exact if_neg h2
  · have h10 : ((9 : Fin 22) : ℕ) + 1 ∉
        ((en.getD [1, 3, 4, 5, 6, 7]).toFinset.erase 2).erase 10 := by
      rw [show ((9 : Fin 22) : ℕ) + 1 = 10 from rfl]
      simp [Finset.mem_erase]
    exact if_neg h10
  · intro i hi
    exact if_neg hi

/-- Witness for `C7_fit_param_handling` at a concrete input: fitting one
data point with P2, P10 and P1 requested drops P2 and P10 (with warnings)
and leaves their slots zero. -/
theorem C7_fit_param_handling_witness :
    ∃ v w2 w10, PointingModel.fit [0] [0] [0] [0] none none
        (some [2, 10, 1]) (fun _ => 5) = .ok (v, w2, w10) ∧
      (w2 = true ↔ 2 ∈ (some [2, 10, 1]).getD [1, 3, 4, 5, 6, 7]) ∧
      (w10 = true ↔ 10 ∈ (some [2, 10, 1]).getD [1, 3, 4, 5, 6, 7]) ∧
      v 1 = 0 ∧ v 9 = 0 ∧
      (∀ i : Fin 22,
        i.1 + 1 ∉ (((some [2, 10, 1]).getD
          [1, 3, 4, 5, 6, 7]).toFinset.erase 2).erase 10 →
        v i = 0) :=
  C7_fit_param_handling [0] [0] [0] [0] none none (some [2, 10, 1])
    (fun _ => 5) (by norm_num)

/-! ### C9: fit shape mismatch raises AssertionError, not ValueError -/

/-- **C9 is false as stated**: a shape mismatch in `PointingModel.fit` is
caught by a bare `assert`, so Python raises AssertionError, not the
ValueError the claim promises. -/
theorem C9_counterexample_assertion_not_value :
    PointingModel.fit [0, 0] [0] [0] [0] none none none (fun _ => 0) =
      .error (.assertionError "Input parameters should all have the same shape") ∧
    ∀ msg, PointingModel.fit [0, 0] [0] [0] [0] none none none (fun _ => 0) ≠
      .error (.valueError msg) := by
  constructor
  · unfold PointingModel.fit
    rw [if_pos]
    norm_num
  · intro msg h
    unfold PointingModel.fit at h
    rw [if_pos (by norm_num)] at h
    exact absurd (Except.error.inj h) (by simp)

/-- **C9 (amended)**: whenever the paired inputs of `PointingModel.fit` do
not all have the same shape, the call raises — an AssertionError from the
`assert` statement (rather than a ValueError). -/
theorem C9_shape_mismatch_raises (az el daz del : List ℝ)
    (sdaz sdel : Option (List ℝ)) (en : Option (List ℕ)) (sol : ℕ → ℝ)
    (hmis : ¬ (az.length = el.length ∧ el.length = daz.length ∧
      daz.length = del.length ∧
      del.length = (sdaz.map List.length).getD az.length ∧
      (sdaz.map List.length).getD az.length =
        (sdel.map List.length).getD el.length)) :
    PointingModel.fit az el daz del sdaz sdel en sol =
      .error (.assertionError "Input parameters should all have the same shape") := by
  unfold PointingModel.fit
  rw [if_pos hmis]

/-- Witness for `C9_shape_mismatch_raises` at a concrete input. -/
theorem C9_shape_mismatch_raises_witness :
    PointingModel.fit [0, 0, 0] [0] [0] [0] none none none (fun _ => 0) =
      .error (.assertionError "Input parameters should all have the same shape") :=
  C9_shape_mismatch_raises [0, 0, 0] [0] [0] [0] none none none (fun _ => 0)
    (by norm_num)

/-! ### C10: Procrustean parameter loading -/

/-- **C10 is false as stated**: loading a pointing-model parameter list of
the wrong length does fail outright in the default mode — with
`strict = true` (the constructor default) a 3-element list raises a
ValueError instead of being padded. -/
theorem C10_counterexample_strict_raises :
    PointingModel.init [1, 2, 3] true =
      .error (.valueError "Pointing model expects exactly 22 parameters") := by
  unfold PointingModel.init
  rw [if_pos (by norm_num), if_pos rfl]

/-- **C10 (amended)**: with `strict = false` (the mode Antenna uses to load
models), a wrong-length parameter list never fails: the constructed vector
consists of the given values followed by zeros when fewer than 22 values are
given, and of the first 22 values otherwise, with a warning emitted iff some
discarded value is non-zero. -/
theorem C10_procrustean_loading (params : List ℝ) :
    ∃ v w, PointingModel.init params false = .ok (v, w) ∧
      (∀ i : Fin 22,
        v i = if h : i.1 < params.length then params.get ⟨i.1, h⟩ else 0) ∧
      (w = true ↔ ∃ x ∈ params.drop 22, x ≠ 0) := by
  have hv : ∀ i : Fin 22, params.getD i.1 0 =
      if h : i.1 < params.length then params.get ⟨i.1, h⟩ else 0 := by
    intro i
    by_cases h : i.1 < params.length
    · rw [dif_pos h, List.getD_eq_getElem?_getD, List.getElem?_eq_getElem h]
      rfl
    · rw [dif_neg h, List.getD_eq_getElem?_getD,
        List.getElem?_eq_none (not_lt.mp h)]
      rfl
  unfold PointingModel.init
  by_cases h22 : params.length = 22
  · rw [if_neg (not_not_intro h22)]
    refine ⟨_, false, rfl, hv, ?_⟩
    rw [List.drop_eq_nil_of_le (by omega)]
    simp
  · rw [if_pos h22]
    by_cases hlt : params.length < 22
    · rw [if_pos hlt]
      refine ⟨_, false, rfl, hv, ?_⟩
      rw [List.drop_eq_nil_of_le (by omega)]
      simp
    · rw [if_neg hlt]
      refine ⟨_, _, rfl, hv, ?_⟩
      by_cases hex : ∃ x ∈ params.drop 22, x ≠ 0
      · rw [if_pos hex]
        simp [hex]
      · rw [if_neg hex]
        simp [hex]

/-! ### C5: vectorisation consistency -/

/-- numpy truthiness of a boolean array: `bool(array)` succeeds only for a
single-element array; for any other size Python raises a ValueError. -/
def npBool (bs : List Bool) : Except PyError Bool :=
  match bs with
  | [b] => .ok b
  | _ => .error (.valueError
      "The truth value of an array with more than one element is ambiguous")

open Classical in
/-- `plane_to_sphere_SIN` applied to same-length arrays `x`, `y` with a
scalar reference, following the numpy semantics of the source line
`if sin2_theta > 1.0:` — the comparison of the element-wise `sin2_theta`
array with `1.0` yields a boolean array, whose Python truth value raises for
more than one element.  (The later `abs(sin_el) > 1` check uses `np.any` and
is array-safe.) -/
def plane_to_sphere_SIN_array (az0 el0 : ℝ) (x y : List ℝ) :
    Except PyError (List (ℝ × ℝ)) := do
  let sin2_theta := List.zipWith (fun a b => a * a + b * b) x y
  let c ← npBool (sin2_theta.map (fun s => if s > 1 then true else false))
  if c then
    throw (.valueError "Length of (x, y) vector bigger than 1.0")
  else if (List.zipWith (fun a b =>
      Real.sin el0 * Real.sqrt (1 - (a * a + b * b)) + Real.cos el0 * b) x y).any
      (fun t => if |t| > 1 then true else false) then
    throw (.valueError "(x, y) coordinates out of range")
  else
    pure (List.zipWith (fun a b =>
      (az0 + arctan2 a (Real.cos el0 * Real.sqrt (1 - (a * a + b * b)) -
         Real.sin el0 * b),
       Real.arcsin (Real.sin el0 * Real.sqrt (1 - (a * a + b * b)) +
         Real.cos el0 * b))) x y)

/-- **C5 exhibits the vectorisation bug**: the scalar `plane_to_sphere_SIN`
accepts each of the two inputs `(1/2, 0)` and `(1/4, 0)`, but the array call
on both at once raises numpy's ambiguous-truth-value ValueError at the
scalar-only check `if sin2_theta > 1.0:`, contradicting the documented
"float or array" contract. -/
theorem C5_counterexample_vectorisation :
    (∃ p, plane_to_sphere_SIN 0 0 (1 / 2) 0 = .ok p) ∧
    (∃ p, plane_to_sphere_SIN 0 0 (1 / 4) 0 = .ok p) ∧
    plane_to_sphere_SIN_array 0 0 [1 / 2, 1 / 4] [0, 0] =
      .error (.valueError
        "The truth value of an array with more than one element is ambiguous") := by
  refine ⟨?_, ?_, ?_⟩
  · unfold plane_to_sphere_SIN
    rw [if_neg (by norm_num), if_neg (by
      rw [Real.sin_zero, Real.cos_zero]
      norm_num)]
    exact ⟨_, rfl⟩
  · unfold plane_to_sphere_SIN
    rw [if_neg (by norm_num), if_neg (by
      rw [Real.sin_zero, Real.cos_zero]
      norm_num)]
    exact ⟨_, rfl⟩
  · unfold plane_to_sphere_SIN_array
    have h1 : ¬ ((1:ℝ) / 2 * (1 / 2) + 0 * 0 > 1) := by norm_num
    have h2 : ¬ ((1:ℝ) / 4 * (1 / 4) + 0 * 0 > 1) := by norm_num
    simp only [List.zipWith, List.map, if_neg h1, if_neg h2]
    rfl

end Katpoint